import Mathlib

/-!
# Verification of the IGA-saveload codec, data model, builder and validator

A shallow embedding of the `iga_fileio` C++ library (IGACommon, IGAData,
IGACreator, IGAReader, IGAWriter) into Lean 4, together with proofs of the
specified properties.

Modelling conventions:
* `uint32_t` / `uint64_t` values are `Nat`s; where a claim depends on the
  value fitting the machine word, an explicit bound (`< 2^32`, `< 2^64`)
  appears as a hypothesis.
* `double` values are modelled by their IEEE-754 binary64 bit patterns
  (a `Nat < 2^64`).  Finiteness, NaN tests and the orderings the source
  uses (`<`, `>=` against `0.0`, `std::lexicographical_compare`) are
  defined on the bit pattern exactly as IEEE-754 prescribes.  This keeps
  the byte-level wire format and the numeric predicates in one model.
* The byte source/sink is a `List Nat` of byte values; `readData` either
  yields exactly the requested bytes or fails, as the interface contract
  requires.
* C++ undefined behaviour (division by zero, out-of-bounds indexing) is
  modelled as `Option.none`.
-/

namespace IGA

/-! ## Little-endian words and bytes -/

/-- Value of a little-endian byte sequence (first byte is least significant). -/
def leWord : List Nat → Nat
  | [] => 0
  | b :: bs => b + 256 * leWord bs

/-- The `k` little-endian bytes of `n` (as written by the writer when it
reinterprets a `k`-byte integer field as raw chars). -/
def leBytes : Nat → Nat → List Nat
  | 0, _ => []
  | k + 1, n => n % 256 :: leBytes k (n / 256)

theorem leBytes_length (k n : Nat) : (leBytes k n).length = k := by
  induction k generalizing n with
  | zero => rfl
  | succ k ih => simp [leBytes, ih]

theorem leWord_leBytes (k n : Nat) : leWord (leBytes k n) = n % 256 ^ k := by
  induction k generalizing n with
  | zero => simp [leBytes, leWord, Nat.mod_one]
  | succ k ih =>
    simp only [leBytes, leWord, ih]
    rw [pow_succ, Nat.mul_comm (256 ^ k) 256, Nat.mod_mul]

theorem leWord_lt (bs : List Nat) (h : ∀ b ∈ bs, b < 256) :
    leWord bs < 256 ^ bs.length := by
  induction bs with
  | nil => simp [leWord]
  | cons b bs ih =>
    have hb : b < 256 := h b (List.mem_cons_self _ _)
    have ht : leWord bs < 256 ^ bs.length := ih (fun x hx => h x (List.mem_cons_of_mem _ hx))
    simp only [leWord, List.length_cons]
    have hp : 256 ^ (bs.length + 1) = 256 ^ bs.length * 256 := pow_succ 256 _
    have h1 : 1 ≤ 256 ^ bs.length := Nat.one_le_pow _ _ (by norm_num)
    omega

/-- Extract byte `i` of a little-endian byte sequence from its value. -/
theorem leWord_getByte (bs : List Nat) (h : ∀ b ∈ bs, b < 256) (i : Nat)
    (hi : i < bs.length) : leWord bs / 256 ^ i % 256 = bs.getD i 0 := by
  induction bs generalizing i with
  | nil => simp at hi
  | cons b bs ih =>
    have hb : b < 256 := h b (List.mem_cons_self _ _)
    cases i with
    | zero =>
      simp only [leWord, pow_zero, Nat.div_one, List.getD_cons_zero]
      omega
    | succ i =>
      have hbs : ∀ x ∈ bs, x < 256 := fun x hx => h x (List.mem_cons_of_mem _ hx)
      have hi' : i < bs.length := by simpa using hi
      have : (b + 256 * leWord bs) / 256 ^ (i + 1) = leWord bs / 256 ^ i := by
        rw [pow_succ, Nat.mul_comm (256 ^ i) 256, ← Nat.div_div_eq_div_mul]
        congr 1
        rw [Nat.add_mul_div_left _ _ (by norm_num : 0 < (256:Nat))]
        omega
      simp only [leWord, this, List.getD_cons_succ]
      exact ih hbs i hi'

/-! ## TagCodec: `tagValue` (IGACommon.cpp)

The C++ function copies characters of a null-terminated string into the
bytes of a zero-initialised `uint64_t` until it hits the terminator or has
copied 8 characters, then pads positions `char_count .. 6` with `'-'` (45)
and position 7 with `'\n'` (10).  On the little-endian targets the format
is defined for, the resulting word has the copied bytes as its low bytes.
The input is the list of byte values of the string (the loop stops at the
first zero byte, matching the `*c` test). -/

/-- The 8 bytes the `tagValue` loop leaves in the output word. -/
def tagBytes (cs : List Nat) : List Nat :=
  let copied := (cs.takeWhile (fun c => c ≠ 0)).take 8
  if copied.length < 8 then copied ++ List.replicate (7 - copied.length) 45 ++ [10]
  else copied

/-- `iga_fileio::tagValue`: the little-endian word built from `tagBytes`. -/
def tagValue (cs : List Nat) : Nat :=
  leWord (tagBytes cs)

theorem tagBytes_length (cs : List Nat) : (tagBytes cs).length = 8 := by
  unfold tagBytes
  set copied := (cs.takeWhile (fun c => c ≠ 0)).take 8 with hc
  have hle : copied.length ≤ 8 := by
    rw [hc]; exact List.length_take_le 8 _
  by_cases h : copied.length < 8
  · simp only [if_pos h, List.length_append, List.length_replicate, List.length_cons,
      List.length_nil]
    omega
  · simp only [if_neg h]
    omega

theorem tagValue_lt (cs : List Nat) (h : ∀ c ∈ cs, c < 256) :
    tagValue cs < 2 ^ 64 := by
  have hb : ∀ b ∈ tagBytes cs, b < 256 := by
    intro b hb
    unfold tagBytes at hb
    set copied := (cs.takeWhile (fun c => c ≠ 0)).take 8 with hc
    have hcop : ∀ b ∈ copied, b < 256 := by
      intro x hx
      exact h x ((List.takeWhile_sublist _).subset (List.mem_of_mem_take (hc ▸ hx)))
    by_cases hlt : copied.length < 8
    · simp only [if_pos hlt, List.mem_append, List.mem_replicate, List.mem_cons,
        List.not_mem_nil] at hb
      rcases hb with (hb | hb) | hb
      · exact hcop b hb
      · omega
      · simp only [or_false] at hb; omega
    · exact hcop b (by simpa [if_neg hlt] using hb)
  have := leWord_lt (tagBytes cs) hb
  rw [tagBytes_length] at this
  calc tagValue cs < 256 ^ 8 := this
    _ = 2 ^ 64 := by norm_num

/-! ## IEEE-754 binary64 bit patterns

A `double` is modelled by its 64-bit pattern.  The predicates below are the
bit-pattern versions of the operations the C++ source performs on doubles:
`finite()` (std::isfinite), `x < y`, `x >= 0.0`, `x < 0.0`. -/

/-- Sign bit of a binary64 pattern. -/
def dSign (d : Nat) : Nat := d / 2 ^ 63 % 2

/-- Magnitude bits (exponent and mantissa) of a binary64 pattern. -/
def dMag (d : Nat) : Nat := d % 2 ^ 63

/-- Exponent field of a binary64 pattern. -/
def dExp (d : Nat) : Nat := d / 2 ^ 52 % 2 ^ 11

/-- The pattern encodes a NaN: exponent all ones, mantissa nonzero. -/
def dIsNan (d : Nat) : Bool := dExp d = 0x7FF && d % 2 ^ 52 ≠ 0

/-- `iga_fileio::finite` (std::isfinite on the Posix side): the exponent
field is not all ones, excluding infinities and NaNs. -/
def finiteB (d : Nat) : Bool := dExp d ≠ 0x7FF

/-- Total order key: IEEE-754 ordering of non-NaN doubles coincides with
the integer ordering of this key, with `+0.0` and `-0.0` mapping to the
same key. -/
def dKey (d : Nat) : Nat := if dSign d = 0 then 2 ^ 63 + dMag d else 2 ^ 63 - dMag d

/-- IEEE-754 `a < b` on bit patterns (false whenever either side is NaN). -/
def dlt (a b : Nat) : Bool := !dIsNan a && !dIsNan b && dKey a < dKey b

/-- IEEE-754 `a >= 0.0` on a bit pattern. -/
def dge0 (a : Nat) : Bool := !dIsNan a && 2 ^ 63 ≤ dKey a

/-- IEEE-754 `a < 0.0` on a bit pattern. -/
def dlt0 (a : Nat) : Bool := !dIsNan a && dKey a < 2 ^ 63

/-- Bit pattern of the double constant `1.0`. -/
def oneBits : Nat := 0x3FF0000000000000

theorem dlt_irrefl (a : Nat) : dlt a a = false := by
  simp [dlt]

theorem dge0_of_dlt0 (a : Nat) (h : dlt0 a = true) : dge0 a = false := by
  simp only [dlt0, Bool.and_eq_true, decide_eq_true_eq, Bool.not_eq_true'] at h
  simp [dge0, h.1]
  omega

/-! ## Generic comparator machinery

`std::lexicographical_compare` over a strict order, association-list
versions of the `std::map` lookups, and the `std::set`-based distinctness
count used by the validator. -/

/-- `std::lexicographical_compare` with element order `lt`. -/
def lexBy (lt : α → α → Bool) : List α → List α → Bool
  | [], [] => false
  | [], _ :: _ => true
  | _ :: _, [] => false
  | a :: as, b :: bs => if lt a b then true else if lt b a then false else lexBy lt as bs

theorem lexBy_irrefl (lt : α → α → Bool) (hirr : ∀ a, lt a a = false)
    (l : List α) : lexBy lt l l = false := by
  induction l with
  | nil => rfl
  | cons a as ih => simp [lexBy, hirr a, ih]

/-- `map.find(k)` on an association list: first entry whose key is
equivalent to `k` under the comparator (`¬lt k' k ∧ ¬lt k k'`). -/
def mapFind (lt : α → α → Bool) : List (α × Nat) → α → Option Nat
  | [], _ => none
  | (k', i) :: rest, k =>
    if !lt k' k && !lt k k' then some i else mapFind lt rest k

theorem mapFind_append_self (lt : α → α → Bool) (hirr : ∀ a, lt a a = false)
    (l : List (α × Nat)) (k : α) (i : Nat) (h : mapFind lt l k = none) :
    mapFind lt (l ++ [(k, i)]) k = some i := by
  induction l with
  | nil => simp [mapFind, hirr k]
  | cons p rest ih =>
    obtain ⟨k', j⟩ := p
    by_cases hk : (!lt k' k && !lt k k') = true
    · simp [mapFind, hk] at h
    · simp only [Bool.not_eq_true] at hk
      simp only [mapFind, hk, Bool.false_eq_true, if_false, List.cons_append] at h ⊢
      exact ih h

theorem mapFind_append_other (lt : α → α → Bool)
    (l : List (α × Nat)) (k k' : α) (i : Nat)
    (h : mapFind lt l k = none) (hne : (!lt k' k && !lt k k') = false) :
    mapFind lt (l ++ [(k', i)]) k = none := by
  induction l with
  | nil => simp [mapFind, hne]
  | cons p rest ih =>
    obtain ⟨k'', j⟩ := p
    by_cases hk : (!lt k'' k && !lt k k'') = true
    · simp [mapFind, hk] at h
    · simp only [Bool.not_eq_true] at hk
      simp only [mapFind, hk, Bool.false_eq_true, if_false, List.cons_append] at h ⊢
      exact ih h

/-- Distinctness under a comparator: inserting all elements of the list
into a `std::set` ordered by `lt` yields as many entries as the list has
(no two elements are comparator-equivalent). -/
def allDistinctBy (lt : α → α → Bool) : List α → Bool
  | [] => true
  | a :: as => as.all (fun b => lt a b || lt b a) && allDistinctBy lt as

/-! ## Data model (IGAData.h / IGAData.cpp)

Structures carry the same fields, in declaration order, as the C++
structs; `double` fields hold binary64 bit patterns. -/

/-- `INVALID_INDEX = 0xFFFFFFFF` (IGACommon.h). -/
def INVALID_INDEX : Nat := 0xFFFFFFFF

/-- `IGA_MAX_ALLOC` (IGACommon.h): allocation ceiling in bytes. -/
def IGA_MAX_ALLOC : Nat := 256000000

/-- `iga_fileio::Point3d`: four doubles x, y, z, w (bit patterns). -/
structure Point3d where
  x : Nat := 0
  y : Nat := 0
  z : Nat := 0
  w : Nat := 0
  deriving DecidableEq, Repr

/-- `iga_fileio::Piece2D`: four uint32 fields. -/
structure Piece2D where
  st_order : Nat := 0
  s_index : Nat := 0
  maybe_t_index : Nat := 0
  pt_index : Nat := 0
  deriving DecidableEq, Repr

/-- `iga_fileio::FaceLayout`: five uint32 cumulative offsets, default
`{0, 1, 2, 3, 4}`. -/
structure FaceLayout where
  side_range : List Nat := [0, 1, 2, 3, 4]
  deriving DecidableEq, Repr

/-- `FaceLayout::operator<`: `std::lexicographical_compare` over the five
offsets. -/
def layoutLT (a b : FaceLayout) : Bool :=
  lexBy (fun x y : Nat => decide (x < y)) a.side_range b.side_range

/-- `iga_fileio::Elem`: three uint32 fields, in the declared order
piece_end_index, layout_index, edge_end_index. -/
structure Elem where
  piece_end_index : Nat := 0
  layout_index : Nat := 0
  edge_end_index : Nat := 0
  deriving DecidableEq, Repr

/-- Byte values of the default surface-type string "unknown". -/
def unknownBytes : List Nat := [117, 110, 107, 110, 111, 119, 110]

/-- `iga_fileio::IGAData`: the geometry model.  A default-constructed (or
`clear()`ed) instance has surface type "unknown" and empty arrays. -/
structure IGAData where
  mSrfType : List Nat := unknownBytes
  mCoeffs : List Nat := []
  mPoints : List Point3d := []
  mPieces : List Piece2D := []
  mEdges : List Nat := []
  mIntervals : List Nat := []
  mLayouts : List FaceLayout := []
  mElems : List Elem := []
  deriving DecidableEq, Repr

instance : Inhabited IGAData := ⟨{}⟩
instance : Inhabited Elem := ⟨{}⟩
instance : Inhabited FaceLayout := ⟨{}⟩

/-- The default layout `{0,1,2,3,4}` (`FaceLayout()`). -/
def defaultLayout : FaceLayout := {}

namespace IGAData

/-- `IGAData::edgeBegin`: 0 for the first element, else the previous
element's `edge_end_index`; `INVALID_INDEX` for an out-of-range element. -/
def edgeBegin (g : IGAData) (elem_index : Nat) : Nat :=
  if elem_index ≥ g.mElems.length then INVALID_INDEX
  else if elem_index = 0 then 0
  else (g.mElems.getD (elem_index - 1) {}).edge_end_index

/-- `IGAData::edgeEnd`: the element's own `edge_end_index`;
`INVALID_INDEX` for an out-of-range element. -/
def edgeEnd (g : IGAData) (elem_index : Nat) : Nat :=
  if elem_index ≥ g.mElems.length then INVALID_INDEX
  else (g.mElems.getD elem_index {}).edge_end_index

/-- `IGAData::edgeInterval`: `1.0` when no intervals are stored, else the
stored interval; an out-of-bounds vector access is undefined behaviour,
modelled as `none`. -/
def edgeInterval (g : IGAData) (edge_index : Nat) : Option Nat :=
  if g.mIntervals.isEmpty then some oneBits
  else g.mIntervals.get? edge_index

/-- `IGAData::layout`: index 0 always yields the default layout, other
indices read the stored array (out of bounds is undefined behaviour in the
source; the model totalises with the default, which no theorem relies
on). -/
def layout (g : IGAData) (layout_index : Nat) : FaceLayout :=
  if layout_index = 0 then defaultLayout
  else g.mLayouts.getD layout_index defaultLayout

/-! ### `IGAData::isValid` (IGAData.cpp)

The validator returns at the first violated check; as a boolean it is the
conjunction of the checks below, in source order.  Stream diagnostics are
dropped. -/

/-- Coefficient loop: every coefficient is finite. -/
def coeffsOk (g : IGAData) : Bool := g.mCoeffs.all finiteB

/-- Point loop: every component of every point is finite. -/
def pointsOk (g : IGAData) : Bool :=
  g.mPoints.all fun p => finiteB p.x && finiteB p.y && finiteB p.z && finiteB p.w

/-- Layout loop: layout 0 (if stored) is the default layout, and every
layout's offsets are strictly increasing.  The loop interleaves the
index-0 check with the monotonicity check; as a boolean the order is
immaterial. -/
def layoutsOk (g : IGAData) : Bool :=
  (match g.mLayouts with
   | [] => true
   | l0 :: _ => !(layoutLT l0 defaultLayout || layoutLT defaultLayout l0)) &&
  g.mLayouts.all fun l =>
    l.side_range.getD 0 0 < l.side_range.getD 1 0 &&
    l.side_range.getD 1 0 < l.side_range.getD 2 0 &&
    l.side_range.getD 2 0 < l.side_range.getD 3 0 &&
    l.side_range.getD 3 0 < l.side_range.getD 4 0

/-- The `std::set` cardinality check: no two stored layouts are
comparator-equivalent. -/
def layoutsDistinct (g : IGAData) : Bool := allDistinctBy layoutLT g.mLayouts

/-- More than one layout requires explicit intervals. -/
def multiLayoutOk (g : IGAData) : Bool :=
  !(g.mLayouts.length > 1 && g.mIntervals.isEmpty)

/-- Piece loop: point index in bounds and coefficient ranges in bounds
(explicit block for explicit pieces, two runs for tensor pieces). -/
def piecesOk (g : IGAData) : Bool :=
  g.mPieces.all fun p =>
    p.pt_index < g.mPoints.length &&
    (let s_order := p.st_order % 2 ^ 16
     let t_order := p.st_order / 2 ^ 16
     if p.maybe_t_index = INVALID_INDEX then
       p.s_index + s_order * t_order ≤ g.mCoeffs.length
     else
       p.s_index + s_order ≤ g.mCoeffs.length &&
       p.maybe_t_index + t_order ≤ g.mCoeffs.length)

/-- Edge and interval arrays have matching sizes unless intervals are
empty. -/
def intervalSizeOk (g : IGAData) : Bool :=
  g.mIntervals.isEmpty || g.mEdges.length = g.mIntervals.length

/-- Interval loop: every interval is `>= 0.0` and finite. -/
def intervalsOk (g : IGAData) : Bool :=
  g.mIntervals.all fun v => !(dlt0 v || !finiteB v)

/-- Edge loop: each edge target is `INVALID_INDEX` or an element index. -/
def edgesOk (g : IGAData) : Bool :=
  g.mEdges.all fun e => e = INVALID_INDEX || e < g.mElems.length

/-- Element loop with its two accumulators, plus the final check that the
last end indices exhaust the edge and piece arrays.  The edge-count
comparison against `side_range[4]` is only performed when the element's
`layout_index` is within the stored layout array (source comment: "Layout
0 is not required to be explicitly stored"). -/
def elemsOkAux (layouts : List FaceLayout) (edges_len pieces_len : Nat) :
    Nat → Nat → List Elem → Bool
  | last_edge_end, last_piece_end, [] =>
    last_edge_end = edges_len && last_piece_end = pieces_len
  | last_edge_end, last_piece_end, e :: rest =>
    last_edge_end ≤ e.edge_end_index &&
    e.edge_end_index ≤ edges_len &&
    last_piece_end ≤ e.piece_end_index &&
    e.piece_end_index ≤ pieces_len &&
    (e.layout_index = 0 || e.layout_index < layouts.length) &&
    (if e.layout_index < layouts.length then
       e.edge_end_index - last_edge_end =
         (layouts.getD e.layout_index {}).side_range.getD 4 0
     else true) &&
    elemsOkAux layouts edges_len pieces_len e.edge_end_index e.piece_end_index rest

/-- Element checks of `isValid`, started with both accumulators at 0. -/
def elemsOk (g : IGAData) : Bool :=
  elemsOkAux g.mLayouts g.mEdges.length g.mPieces.length 0 0 g.mElems

/-- `IGAData::isValid`. -/
def isValid (g : IGAData) : Bool :=
  coeffsOk g && pointsOk g && layoutsOk g && layoutsDistinct g &&
  multiLayoutOk g && piecesOk g && intervalSizeOk g && intervalsOk g &&
  edgesOk g && elemsOk g

end IGAData

/-! ## Builder (IGACreator.h / IGACreator.cpp)

The creator owns a parent `IGAData` plus the two content-addressed lookup
tables (`std::map` with the lexicographic comparators, modelled as
association lists searched with the same comparator).  Mutating member
functions return the produced index together with the updated creator
state; the one undefined behaviour (`addExplicitPiece` dividing by a zero
`s_order`) returns `none`. -/

/-- `CoeffVectorLessThan::operator()`: lexicographic compare with the
IEEE double order. -/
def coeffLT (a b : List Nat) : Bool := lexBy dlt a b

/-- `std::vector::max_size()`, a platform constant far above every bound
the source compares against first; any value at least `INVALID_INDEX`
leaves the behaviour of `safeAppend`/`addCoeffs` unchanged. -/
def vecMaxSize : Nat := 2 ^ 61 - 1

structure IGACreator where
  parent : IGAData := {}
  mCoeffLookup : List (List Nat × Nat) := []
  mLayoutLookup : List (FaceLayout × Nat) := []
  deriving DecidableEq, Repr

namespace IGACreator

/-- The `safeAppend` template: guards the 32-bit index space, then
appends and returns the index used. -/
def safeAppend (vec : List α) (value : α) : Nat × List α :=
  if vec.length ≥ INVALID_INDEX - 1 || vec.length ≥ vecMaxSize then
    (INVALID_INDEX, vec)
  else (vec.length, vec ++ [value])

/-- `IGACreator::addCoeffs`: appends a whole coefficient vector with the
overflow and order guards. -/
def addCoeffs (c : IGACreator) (coeffs : List Nat) : Nat × IGACreator :=
  let mCoeffs := c.parent.mCoeffs
  if mCoeffs.length + coeffs.length ≥ INVALID_INDEX ||
     mCoeffs.length + coeffs.length > vecMaxSize ||
     coeffs.length ≥ 0x7FFF then
    (INVALID_INDEX, c)
  else
    (mCoeffs.length, { c with parent := { c.parent with mCoeffs := mCoeffs ++ coeffs } })

/-- `IGACreator::addEdge`. -/
def addEdge (c : IGACreator) (elem : Nat) (knot_interval : Nat) : Nat × IGACreator :=
  let (edge_index, edges) := safeAppend c.parent.mEdges elem
  let c1 : IGACreator := { c with parent := { c.parent with mEdges := edges } }
  if dge0 knot_interval then
    let (interval_index, intervals) := safeAppend c1.parent.mIntervals knot_interval
    let c2 : IGACreator := { c1 with parent := { c1.parent with mIntervals := intervals } }
    if edge_index ≠ interval_index then (INVALID_INDEX, c2)
    else (edge_index, c2)
  else if !c1.parent.mIntervals.isEmpty then (INVALID_INDEX, c1)
  else (edge_index, c1)

/-- `IGACreator::addElem`. -/
def addElem (c : IGACreator) (elem : Elem) : Nat × IGACreator :=
  let (i, elems) := safeAppend c.parent.mElems elem
  (i, { c with parent := { c.parent with mElems := elems } })

/-- `IGACreator::addLayout`. -/
def addLayout (c : IGACreator) (l : FaceLayout) : Nat × IGACreator :=
  let (i, layouts) := safeAppend c.parent.mLayouts l
  (i, { c with parent := { c.parent with mLayouts := layouts } })

/-- `IGACreator::addPiece`. -/
def addPiece (c : IGACreator) (p : Piece2D) : Nat × IGACreator :=
  let (i, pieces) := safeAppend c.parent.mPieces p
  (i, { c with parent := { c.parent with mPieces := pieces } })

/-- `IGACreator::addPoint`. -/
def addPoint (c : IGACreator) (p : Point3d) : Nat × IGACreator :=
  let (i, points) := safeAppend c.parent.mPoints p
  (i, { c with parent := { c.parent with mPoints := points } })

/-- `IGACreator::getDictionaryIndex`: reject non-finite values, then look
the vector up by comparator equivalence; on a miss, append it and record
the new index. -/
def getDictionaryIndex (c : IGACreator) (coeffs : List Nat) : Nat × IGACreator :=
  if !coeffs.all finiteB then (INVALID_INDEX, c)
  else
    match mapFind coeffLT c.mCoeffLookup coeffs with
    | some i => (i, c)
    | none =>
      let (new_index, c') := addCoeffs c coeffs
      if new_index = INVALID_INDEX then (INVALID_INDEX, c')
      else (new_index, { c' with mCoeffLookup := c'.mCoeffLookup ++ [(coeffs, new_index)] })

/-- The guarded insertion inside `IGACreator::getLayoutIndex`: on the very
first stored layout, if it is not the default, silently store the default
first at index 0 (both in the parent array and in the lookup table). -/
def insertDefaultIfNeeded (c : IGACreator) (l : FaceLayout) : IGACreator :=
  if c.parent.mLayouts.isEmpty && (layoutLT l defaultLayout || layoutLT defaultLayout l) then
    { c with
      parent := { c.parent with mLayouts := c.parent.mLayouts ++ [defaultLayout] },
      mLayoutLookup := c.mLayoutLookup ++ [(defaultLayout, 0)] }
  else c

/-- `IGACreator::getLayoutIndex`: comparator-equivalence lookup; on a
miss, apply the default-layout rule, then append and record the index. -/
def getLayoutIndex (c : IGACreator) (l : FaceLayout) : Nat × IGACreator :=
  match mapFind layoutLT c.mLayoutLookup l with
  | some i => (i, c)
  | none =>
    let c1 := insertDefaultIfNeeded c l
    let (new_index, c2) := addLayout c1 l
    if new_index = INVALID_INDEX then (INVALID_INDEX, c2)
    else (new_index, { c2 with mLayoutLookup := c2.mLayoutLookup ++ [(l, new_index)] })

/-- `IGACreator::addExplicitPiece`.  The source computes
`t_order = static_cast<int>(coeffs.size()) / s_order` before validating
`s_order`; for `s_order = 0` that is an integer division by zero, which is
undefined behaviour — modelled as `none`.  `s_order` is a C `int`, hence
`Int` here; the division is C truncating division. -/
def addExplicitPiece (c : IGACreator) (s_order : Int) (pt_index : Nat)
    (coeffs : List Nat) : Option (Nat × IGACreator) :=
  if coeffs.length > 0x7FFF * 0x7FFF then some (INVALID_INDEX, c)
  else if s_order = 0 then none
  else
    let t_order : Int := Int.tdiv (coeffs.length : Int) s_order
    if s_order < 0 || s_order > 0x7FFF || t_order < 0 || t_order > 0x7FFF then
      some (INVALID_INDEX, c)
    else if s_order.toNat * t_order.toNat ≠ coeffs.length then
      some (INVALID_INDEX, c)
    else
      let st_order : Nat := s_order.toNat + t_order.toNat * 2 ^ 16
      let (s_index, c1) := getDictionaryIndex c coeffs
      if s_index = INVALID_INDEX then some (INVALID_INDEX, c1)
      else
        some (addPiece c1
          { st_order := st_order, s_index := s_index,
            maybe_t_index := INVALID_INDEX, pt_index := pt_index })

end IGACreator

/-! ## Writer (IGAWriter.cpp)

`writeData` on the abstract sink is modelled as appending to a byte list
(the claim under verification concerns the produced byte sequence, so
sink failures — which merely abort the write — are not modelled).
`writeBlock` emits the frame marker, the tag word, the id, the length,
the payload and the repeated length; `writeIGAFile` writes the magic, the
empty IGAFILE block and one block per field, skipping KNOTINT when the
interval array is empty. -/

/-- The 8 magic bytes `"#TSS0001"`. -/
def magicBytes : List Nat := [35, 84, 83, 83, 48, 48, 48, 49]

/-- The 8 frame-marker bytes `"\nBLOCK:\n"`. -/
def markerBytes : List Nat := [10, 66, 76, 79, 67, 75, 58, 10]

/-- Mnemonic byte strings passed to `tagValue` by reader and writer. -/
def tagIGAFILE : List Nat := [73, 71, 65, 70, 73, 76, 69]
def tagSRFTYPE : List Nat := [83, 82, 70, 84, 89, 80, 69]
def tagVECDICT : List Nat := [86, 69, 67, 68, 73, 67, 84]
def tagPT3DW : List Nat := [80, 84, 51, 68, 87]
def tag2DPIECE : List Nat := [50, 68, 80, 73, 69, 67, 69]
def tagLAYOUT : List Nat := [76, 65, 89, 79, 85, 84]
def tagEDGES : List Nat := [69, 68, 71, 69, 83]
def tagKNOTINT : List Nat := [75, 78, 79, 84, 73, 78, 84]
def tagSHAPE : List Nat := [83, 72, 65, 80, 69]

/-- `IGAWriter::writeBlock` with id 0: the bytes it sends to the sink. -/
def writeBlockBytes (block_type : List Nat) (contents : List Nat) : List Nat :=
  markerBytes ++ leBytes 8 (tagValue block_type) ++ leBytes 8 0 ++
  leBytes 8 contents.length ++ contents ++ leBytes 8 contents.length

/-- Bytes of one `double[]` payload. -/
def serDoubles (xs : List Nat) : List Nat := xs.flatMap (leBytes 8)

/-- Bytes of one `uint32_t[]` payload. -/
def serU32s (xs : List Nat) : List Nat := xs.flatMap (leBytes 4)

/-- Bytes of one `Point3d[]` payload (fields in declaration order). -/
def serPoints (ps : List Point3d) : List Nat :=
  ps.flatMap fun p => leBytes 8 p.x ++ leBytes 8 p.y ++ leBytes 8 p.z ++ leBytes 8 p.w

/-- Bytes of one `Piece2D[]` payload. -/
def serPieces (ps : List Piece2D) : List Nat :=
  ps.flatMap fun p =>
    leBytes 4 p.st_order ++ leBytes 4 p.s_index ++ leBytes 4 p.maybe_t_index ++
    leBytes 4 p.pt_index

/-- Bytes of one `FaceLayout[]` payload. -/
def serLayouts (ls : List FaceLayout) : List Nat :=
  ls.flatMap fun l => l.side_range.flatMap (leBytes 4)

/-- Bytes of one `Elem[]` payload. -/
def serElems (es : List Elem) : List Nat :=
  es.flatMap fun e =>
    leBytes 4 e.piece_end_index ++ leBytes 4 e.layout_index ++ leBytes 4 e.edge_end_index

/-- `IGAWriter::writeIGAFile`: the full byte sequence sent to the sink. -/
def writeIGAFile (g : IGAData) : List Nat :=
  magicBytes ++
  writeBlockBytes tagIGAFILE [] ++
  writeBlockBytes tagSRFTYPE g.mSrfType ++
  writeBlockBytes tagVECDICT (serDoubles g.mCoeffs) ++
  writeBlockBytes tagPT3DW (serPoints g.mPoints) ++
  writeBlockBytes tag2DPIECE (serPieces g.mPieces) ++
  writeBlockBytes tagLAYOUT (serLayouts g.mLayouts) ++
  writeBlockBytes tagEDGES (serU32s g.mEdges) ++
  (if g.mIntervals.length > 0 then writeBlockBytes tagKNOTINT (serDoubles g.mIntervals)
   else []) ++
  writeBlockBytes tagSHAPE (serElems g.mElems)

/-! ## Reader (IGAReader.cpp)

`readData` on the abstract source either yields exactly the requested
bytes or fails (the contract in IGAReader.h).  Payload bytes are
reinterpreted as packed little-endian structs exactly as the bulk
`readBlock` reads do. -/

/-- The source contract: an exact read or failure. -/
def readData (n : Nat) (s : List Nat) : Option (List Nat × List Nat) :=
  if n ≤ s.length then some (s.take n, s.drop n) else none

/-- Bytes to `uint64_t[]`; a trailing fragment shorter than 8 bytes cannot
occur (block lengths are checked to be multiples of the struct size). -/
def parseU64s : List Nat → List Nat
  | b0 :: b1 :: b2 :: b3 :: b4 :: b5 :: b6 :: b7 :: rest =>
    leWord [b0, b1, b2, b3, b4, b5, b6, b7] :: parseU64s rest
  | _ => []

/-- Bytes to `uint32_t[]`. -/
def parseU32s : List Nat → List Nat
  | b0 :: b1 :: b2 :: b3 :: rest => leWord [b0, b1, b2, b3] :: parseU32s rest
  | _ => []

/-- Group whole words into `Point3d` records. -/
def groupPoints : List Nat → List Point3d
  | x :: y :: z :: w :: rest => ⟨x, y, z, w⟩ :: groupPoints rest
  | _ => []

/-- Group whole words into `Piece2D` records. -/
def groupPieces : List Nat → List Piece2D
  | a :: b :: c :: d :: rest => ⟨a, b, c, d⟩ :: groupPieces rest
  | _ => []

/-- Group whole words into `FaceLayout` records. -/
def groupLayouts : List Nat → List FaceLayout
  | a :: b :: c :: d :: e :: rest => ⟨[a, b, c, d, e]⟩ :: groupLayouts rest
  | _ => []

/-- Group whole words into `Elem` records (declaration order:
piece_end_index, layout_index, edge_end_index). -/
def groupElems : List Nat → List Elem
  | a :: b :: c :: rest => ⟨a, b, c⟩ :: groupElems rest
  | _ => []

def parsePoints (bs : List Nat) : List Point3d := groupPoints (parseU64s bs)
def parsePieces (bs : List Nat) : List Piece2D := groupPieces (parseU32s bs)
def parseLayouts (bs : List Nat) : List FaceLayout := groupLayouts (parseU32s bs)
def parseElems (bs : List Nat) : List Elem := groupElems (parseU32s bs)

/-- The payload phase of `IGAReader::readBlock<T>`: on a zero length the
destination keeps its previous contents `old`; otherwise the length must
be below the allocation ceiling and the payload fully readable, and the
bytes are reinterpreted as packed structs. -/
def readBlockPayload (parse : List Nat → List α) (old : List α) (len : Nat)
    (s : List Nat) : Option (List α × List Nat) :=
  if len = 0 then some (old, s)
  else if IGA_MAX_ALLOC ≤ len then none
  else match readData len s with
    | none => none
    | some (bs, s1) => some (parse bs, s1)

/-- `IGAReader::readBlock<T>` with `sizeof(T) = k`: length must be a
multiple of `k`; then the payload phase runs, and the trailing 8-byte
length must repeat the leading one. -/
def readBlock (k : Nat) (parse : List Nat → List α) (old : List α) (len : Nat)
    (s : List Nat) : Option (List α × List Nat) :=
  if len % k ≠ 0 then none
  else
    match readBlockPayload parse old len s with
    | none => none
    | some (val, s1) =>
      match readData 8 s1 with
      | none => none
      | some (fl, s2) => if leWord fl = len then some (val, s2) else none

/-- `iga_fileio::BlockHeader` as read from the stream: 8 raw tag bytes and
three little-endian `uint64_t` fields. -/
structure BlockHeader where
  block_tag : List Nat
  tag : Nat
  id : Nat
  block_len : Nat
  deriving DecidableEq, Repr

/-- Reinterpret 32 bytes as a `BlockHeader`. -/
def parseHeader (bs : List Nat) : BlockHeader :=
  { block_tag := bs.take 8
    tag := leWord ((bs.drop 8).take 8)
    id := leWord ((bs.drop 16).take 8)
    block_len := leWord ((bs.drop 24).take 8) }

/-- Read a whole 32-byte block header. -/
def readHeader (s : List Nat) : Option (BlockHeader × List Nat) :=
  match readData 32 s with
  | none => none
  | some (bs, s1) => some (parseHeader bs, s1)

/-- The body of the reader loop for one successfully read header: the
tag dispatch of `IGAReader::readIGAFile`.  A SRFTYPE block clears the
geometry before assigning the surface type from the freshly read local
buffer; unknown tags read into a scratch buffer and are discarded. -/
def dispatch (g : IGAData) (tag len : Nat) (s : List Nat) : Option (IGAData × List Nat) :=
  if tag = tagValue tagSRFTYPE then
    (readBlock 1 (fun bs => bs) [] len s).map fun r => ({ ({} : IGAData) with mSrfType := r.1 }, r.2)
  else if tag = tagValue tagVECDICT then
    (readBlock 8 parseU64s g.mCoeffs len s).map fun r => ({ g with mCoeffs := r.1 }, r.2)
  else if tag = tagValue tagPT3DW then
    (readBlock 32 parsePoints g.mPoints len s).map fun r => ({ g with mPoints := r.1 }, r.2)
  else if tag = tagValue tag2DPIECE then
    (readBlock 16 parsePieces g.mPieces len s).map fun r => ({ g with mPieces := r.1 }, r.2)
  else if tag = tagValue tagLAYOUT then
    (readBlock 20 parseLayouts g.mLayouts len s).map fun r => ({ g with mLayouts := r.1 }, r.2)
  else if tag = tagValue tagEDGES then
    (readBlock 4 parseU32s g.mEdges len s).map fun r => ({ g with mEdges := r.1 }, r.2)
  else if tag = tagValue tagKNOTINT then
    (readBlock 8 parseU64s g.mIntervals len s).map fun r => ({ g with mIntervals := r.1 }, r.2)
  else if tag = tagValue tagSHAPE then
    (readBlock 12 parseElems g.mElems len s).map fun r => ({ g with mElems := r.1 }, r.2)
  else
    (readBlock 1 (fun bs => bs) [] len s).map fun r => (g, r.2)

/-- The reader loop: failure to read a full 32-byte block header is the
end-of-stream signal and terminates successfully with the geometry
accumulated so far; a bad frame marker or a failed block read aborts the
decode.  The loop consumes at least 32 bytes per iteration, so any fuel
exceeding the stream length is enough; `readIGAFile` passes
`s.length + 1`. -/
def readLoop : Nat → IGAData → List Nat → Option IGAData
  | 0, _, _ => none
  | fuel + 1, g, s =>
    match readData 32 s with
    | none => some g
    | some (hb, s1) =>
      let h := parseHeader hb
      if tagValue h.block_tag ≠ tagValue markerBytes then none
      else
        match dispatch g h.tag h.block_len s1 with
        | none => none
        | some (g', s2) => readLoop fuel g' s2

/-- `IGAReader::readIGAFile`: clear the geometry, check the magic, require
the empty IGAFILE header block, then run the block loop.  `none` models a
`false` return (decode failure); `some g` models success with `g`
assigned. -/
def readIGAFile (s : List Nat) : Option IGAData :=
  match readData 8 s with
  | none => none
  | some (magic, s1) =>
    if magic ≠ magicBytes then none
    else match readHeader s1 with
      | none => none
      | some (h, s2) =>
        if tagValue h.block_tag ≠ tagValue markerBytes then none
        else if h.tag ≠ tagValue tagIGAFILE then none
        else match readBlock 1 (fun bs => bs) [] h.block_len s2 with
          | none => none
          | some (_, s3) => readLoop (s3.length + 1) {} s3

/-! ## Claim C6: uniform-interval default -/

/-- C6: for every GeometryModel whose interval array is empty and for
every edge index, `edgeInterval` returns exactly `1.0` (the binary64
pattern `0x3FF0000000000000`), without touching the interval storage. -/
theorem edgeInterval_empty_is_one (g : IGAData) (h : g.mIntervals = [])
    (edge_index : Nat) : g.edgeInterval edge_index = some oneBits := by
  simp [IGAData.edgeInterval, h]

theorem edgeInterval_empty_is_one_witness :
    ({} : IGAData).mIntervals = [] ∧
    IGAData.edgeInterval {} 12345 = some oneBits :=
  ⟨rfl, edgeInterval_empty_is_one {} rfl 12345⟩

/-! ## Claim C10: edgeBegin / edgeEnd bounds behaviour -/

/-- C10: for every GeometryModel and every `elem_index` at or beyond the
element count, both `edgeBegin` and `edgeEnd` return `INVALID_INDEX`
instead of reading out of bounds, and on a non-empty element array
`edgeBegin 0 = 0`. -/
theorem edgeBegin_edgeEnd_oob (g : IGAData) (elem_index : Nat) :
    (elem_index ≥ g.mElems.length →
      g.edgeBegin elem_index = INVALID_INDEX ∧
      g.edgeEnd elem_index = INVALID_INDEX) ∧
    (g.mElems ≠ [] → g.edgeBegin 0 = 0) := by
  constructor
  · intro h
    constructor
    · simp [IGAData.edgeBegin, h]
    · simp [IGAData.edgeEnd, h]
  · intro h
    have hlen : 0 < g.mElems.length := List.length_pos.mpr h
    have h0 : ¬ (0 ≥ g.mElems.length) := by omega
    simp [IGAData.edgeBegin, h0]

theorem edgeBegin_edgeEnd_oob_witness :
    (3 ≥ ({ mElems := [{}] } : IGAData).mElems.length →
      IGAData.edgeBegin { mElems := [{}] } 3 = INVALID_INDEX ∧
      IGAData.edgeEnd { mElems := [{}] } 3 = INVALID_INDEX) ∧
    (({ mElems := [{}] } : IGAData).mElems ≠ [] →
      IGAData.edgeBegin { mElems := [{}] } 0 = 0) :=
  edgeBegin_edgeEnd_oob { mElems := [{}] } 3

/-! ## Claim C9: tagValue byte layout -/

theorem takeWhile_ne_zero_of_all (cs : List Nat) (h : ∀ c ∈ cs, c ≠ 0) :
    cs.takeWhile (fun c => c ≠ 0) = cs := by
  induction cs with
  | nil => rfl
  | cons c cs ih =>
    have hc : c ≠ 0 := h c (List.mem_cons_self _ _)
    rw [List.takeWhile_cons_of_pos (by simp [hc]),
      ih fun x hx => h x (List.mem_cons_of_mem _ hx)]

/-- C9: for a null-terminated string of `n` non-null byte values,
`tagValue` returns a 64-bit word whose byte `i` (little-endian, `i < 8`)
is the `i`-th character when `i < n`, the pad byte `'-'` (45) when
`n ≤ i < 7`, and `'\n'` (10) at byte 7, for `n < 8`; for `n ≥ 8` the low
8 bytes are exactly the first 8 characters.  The function is total: every
input list is accepted. -/
theorem tagValue_byte_layout (cs : List Nat) (h : ∀ c ∈ cs, 0 < c ∧ c < 256) :
    tagValue cs < 2 ^ 64 ∧
    ∀ i, i < 8 →
      tagValue cs / 256 ^ i % 256 =
        (if i < cs.length then cs.getD i 0 else if i < 7 then 45 else 10) := by
  have hne : ∀ c ∈ cs, c ≠ 0 := fun c hc => by have := (h c hc).1; omega
  have hlt : ∀ c ∈ cs, c < 256 := fun c hc => (h c hc).2
  have htw : cs.takeWhile (fun c => c ≠ 0) = cs := takeWhile_ne_zero_of_all cs hne
  have hbytes : ∀ b ∈ tagBytes cs, b < 256 := by
    intro b hb
    simp only [tagBytes, htw] at hb
    split at hb
    · simp only [List.mem_append, List.mem_replicate, List.mem_singleton] at hb
      rcases hb with (hb | hb) | hb
      · exact hlt b (List.mem_of_mem_take hb)
      · omega
      · omega
    · exact hlt b (List.mem_of_mem_take hb)
  refine ⟨tagValue_lt cs hlt, ?_⟩
  intro i hi
  have hget : tagValue cs / 256 ^ i % 256 = (tagBytes cs).getD i 0 := by
    rw [tagValue]
    exact leWord_getByte _ hbytes i (by rw [tagBytes_length]; exact hi)
  rw [hget]
  simp only [tagBytes, htw]
  by_cases hn : cs.length < 8
  · have htk : cs.take 8 = cs := List.take_of_length_le (by omega)
    rw [htk, if_pos (by omega), List.append_assoc]
    by_cases hic : i < cs.length
    · rw [if_pos hic, List.getD_append _ _ _ _ hic]
    · rw [if_neg hic]
      push_neg at hic
      rw [List.getD_append_right _ _ _ _ hic]
      by_cases hi7 : i < 7
      · rw [if_pos hi7]
        rw [List.getD_append _ _ _ _ (by rw [List.length_replicate]; omega)]
        rw [List.getD_eq_getElem _ _ (by rw [List.length_replicate]; omega)]
        simp
      · rw [if_neg hi7]
        have hi7' : i = 7 := by omega
        subst hi7'
        rw [List.getD_append_right _ _ _ _ (by rw [List.length_replicate])]
        have h0 : 7 - cs.length - (List.replicate (7 - cs.length) 45).length = 0 := by
          rw [List.length_replicate]
          omega
        rw [h0]
        rfl
  · have h8 : ¬ ((cs.take 8).length < 8) := by
      rw [List.length_take]
      omega
    rw [if_neg h8]
    rw [if_pos (show i < cs.length by omega)]
    rw [List.getD_eq_getElem _ _ (show i < (List.take 8 cs).length by
      rw [List.length_take]; omega)]
    rw [List.getD_eq_getElem _ _ (show i < cs.length by omega)]
    simp

theorem tagValue_byte_layout_witness :
    (∀ c ∈ tagEDGES, 0 < c ∧ c < 256) ∧
    (tagValue tagEDGES < 2 ^ 64 ∧
     ∀ i, i < 8 →
       tagValue tagEDGES / 256 ^ i % 256 =
         (if i < tagEDGES.length then tagEDGES.getD i 0 else if i < 7 then 45 else 10)) :=
  ⟨by decide, tagValue_byte_layout tagEDGES (by decide)⟩

/-! ## Claim C3: idempotent coefficient-dictionary lookup -/

theorem coeffLT_irrefl (a : List Nat) : coeffLT a a = false :=
  lexBy_irrefl dlt dlt_irrefl a

/-- C3: for every coefficient vector of finite values and every builder
state, two successive `getDictionaryIndex` calls return the same index,
and the second call leaves the creator (lookup table, coefficient
dictionary and whole parent model) unchanged. -/
theorem getDictionaryIndex_idem (c : IGACreator) (v : List Nat)
    (hfin : v.all finiteB = true) :
    ((c.getDictionaryIndex v).2.getDictionaryIndex v).1 = (c.getDictionaryIndex v).1 ∧
    ((c.getDictionaryIndex v).2.getDictionaryIndex v).2 = (c.getDictionaryIndex v).2 := by
  cases hf : mapFind coeffLT c.mCoeffLookup v with
  | some i =>
    constructor <;> simp [IGACreator.getDictionaryIndex, hfin, hf]
  | none =>
    by_cases hg : (c.parent.mCoeffs.length + v.length ≥ INVALID_INDEX ||
        c.parent.mCoeffs.length + v.length > vecMaxSize || v.length ≥ 0x7FFF) = true
    · have hac : IGACreator.addCoeffs c v = (INVALID_INDEX, c) := by
        simp only [IGACreator.addCoeffs, hg, if_true]
      constructor <;>
        simp [IGACreator.getDictionaryIndex, hfin, hf, hac]
    · have hlen : c.parent.mCoeffs.length < INVALID_INDEX := by
        simp only [Bool.or_eq_true, decide_eq_true_eq, not_or] at hg
        omega
      have hac : IGACreator.addCoeffs c v =
          (c.parent.mCoeffs.length,
           { c with parent := { c.parent with mCoeffs := c.parent.mCoeffs ++ v } }) := by
        simp only [IGACreator.addCoeffs]
        rw [if_neg hg]
      have hfind2 : mapFind coeffLT (c.mCoeffLookup ++ [(v, c.parent.mCoeffs.length)]) v =
          some c.parent.mCoeffs.length :=
        mapFind_append_self coeffLT coeffLT_irrefl _ v _ hf
      have hne : ¬ (c.parent.mCoeffs.length = INVALID_INDEX) := by omega
      constructor <;>
        simp [IGACreator.getDictionaryIndex, hfin, hf, hac, hne, hfind2]

theorem getDictionaryIndex_idem_witness :
    ([oneBits].all finiteB = true) ∧
    (((IGACreator.getDictionaryIndex {} [oneBits]).2.getDictionaryIndex [oneBits]).1 =
       (IGACreator.getDictionaryIndex {} [oneBits]).1 ∧
     ((IGACreator.getDictionaryIndex {} [oneBits]).2.getDictionaryIndex [oneBits]).2 =
       (IGACreator.getDictionaryIndex {} [oneBits]).2) :=
  ⟨by decide, getDictionaryIndex_idem {} [oneBits] (by decide)⟩

/-! ## Claim C7: getLayoutIndex and the default-layout rule -/

theorem lexByNat_eq_of_not (a b : List Nat)
    (h1 : lexBy (fun x y : Nat => decide (x < y)) a b = false)
    (h2 : lexBy (fun x y : Nat => decide (x < y)) b a = false) : a = b := by
  induction a generalizing b with
  | nil =>
    cases b with
    | nil => rfl
    | cons x xs => simp [lexBy] at h1
  | cons a as ih =>
    cases b with
    | nil => simp [lexBy] at h2
    | cons b bs =>
      simp only [lexBy] at h1 h2
      by_cases hab : a < b
      · simp [hab] at h1
      · by_cases hba : b < a
        · simp [hab, hba] at h2
        · have : a = b := by omega
          subst this
          simp [hab] at h1 h2
          rw [ih bs h1 h2]

theorem layoutLT_irrefl (l : FaceLayout) : layoutLT l l = false :=
  lexBy_irrefl _ (fun a => by simp) _

theorem layoutLT_total_ne (a b : FaceLayout) (h : a ≠ b) :
    (layoutLT a b || layoutLT b a) = true := by
  by_contra hc
  simp only [Bool.or_eq_true, not_or, Bool.not_eq_true] at hc
  exact h (by
    cases a; cases b
    simp only [FaceLayout.mk.injEq]
    exact lexByNat_eq_of_not _ _ hc.1 hc.2)

theorem safeAppend_fail (vec : List α) (v : α)
    (h : (vec.length ≥ INVALID_INDEX - 1 || vec.length ≥ vecMaxSize) = true) :
    IGACreator.safeAppend vec v = (INVALID_INDEX, vec) := by
  simp only [IGACreator.safeAppend, h, if_true]

theorem safeAppend_ok (vec : List α) (v : α)
    (h : ¬ ((vec.length ≥ INVALID_INDEX - 1 || vec.length ≥ vecMaxSize) = true)) :
    IGACreator.safeAppend vec v = (vec.length, vec ++ [v]) := by
  simp only [IGACreator.safeAppend]
  rw [if_neg h]

theorem insertDefault_needed (c : IGACreator) (L : FaceLayout)
    (hly : c.parent.mLayouts = [])
    (hor : (layoutLT L defaultLayout || layoutLT defaultLayout L) = true) :
    IGACreator.insertDefaultIfNeeded c L =
      { c with parent := { c.parent with mLayouts := [defaultLayout] },
               mLayoutLookup := c.mLayoutLookup ++ [(defaultLayout, 0)] } := by
  simp [IGACreator.insertDefaultIfNeeded, hly, hor]

theorem insertDefault_skipped (c : IGACreator) (L : FaceLayout)
    (h : ¬ ((c.parent.mLayouts.isEmpty &&
      (layoutLT L defaultLayout || layoutLT defaultLayout L)) = true)) :
    IGACreator.insertDefaultIfNeeded c L = c := by
  unfold IGACreator.insertDefaultIfNeeded
  rw [if_neg h]

theorem getLayoutIndex_hit (c : IGACreator) (L : FaceLayout) (i : Nat)
    (hf : mapFind layoutLT c.mLayoutLookup L = some i) :
    c.getLayoutIndex L = (i, c) := by
  unfold IGACreator.getLayoutIndex
  rw [hf]

theorem getLayoutIndex_miss_fail (c : IGACreator) (L : FaceLayout)
    (hf : mapFind layoutLT c.mLayoutLookup L = none)
    (hgrow : (((IGACreator.insertDefaultIfNeeded c L).parent.mLayouts.length ≥ INVALID_INDEX - 1 ||
        (IGACreator.insertDefaultIfNeeded c L).parent.mLayouts.length ≥ vecMaxSize) = true)) :
    c.getLayoutIndex L = (INVALID_INDEX, IGACreator.insertDefaultIfNeeded c L) := by
  unfold IGACreator.getLayoutIndex
  rw [hf]
  simp only [IGACreator.addLayout, safeAppend_fail _ _ hgrow]
  simp

theorem getLayoutIndex_miss_ok (c : IGACreator) (L : FaceLayout)
    (hf : mapFind layoutLT c.mLayoutLookup L = none)
    (hgrow : ¬ (((IGACreator.insertDefaultIfNeeded c L).parent.mLayouts.length ≥ INVALID_INDEX - 1 ||
        (IGACreator.insertDefaultIfNeeded c L).parent.mLayouts.length ≥ vecMaxSize) = true)) :
    c.getLayoutIndex L =
      ((IGACreator.insertDefaultIfNeeded c L).parent.mLayouts.length,
       { IGACreator.insertDefaultIfNeeded c L with
         parent := { (IGACreator.insertDefaultIfNeeded c L).parent with
           mLayouts := (IGACreator.insertDefaultIfNeeded c L).parent.mLayouts ++ [L] },
         mLayoutLookup := (IGACreator.insertDefaultIfNeeded c L).mLayoutLookup ++
           [(L, (IGACreator.insertDefaultIfNeeded c L).parent.mLayouts.length)] }) := by
  have hne : ¬ ((IGACreator.insertDefaultIfNeeded c L).parent.mLayouts.length = INVALID_INDEX) := by
    simp only [Bool.or_eq_true, decide_eq_true_eq, not_or] at hgrow
    have h1 : INVALID_INDEX - 1 ≤ INVALID_INDEX := Nat.sub_le _ _
    have h2 : (0 : Nat) < INVALID_INDEX := by norm_num [INVALID_INDEX]
    omega
  unfold IGACreator.getLayoutIndex
  rw [hf]
  simp only [IGACreator.addLayout, safeAppend_ok _ _ hgrow]
  simp [hne]

/-- C7: (i) calling `getLayoutIndex` with a non-default layout `L` while
the layout array is empty (and hence, in any reachable builder state, the
lookup table is empty too) stores the default layout first at index 0 and
assigns index 1 to `L`; (ii) after any successful call, the layout stored
at index 0 is the default layout, given the reachable-state facts that a
non-empty lookup table implies a non-empty layout array and that a
non-empty layout array already starts with the default; (iii) a repeated
call with the same layout returns the same index again and leaves the
whole builder state unchanged. -/
theorem getLayoutIndex_spec (c : IGACreator) (L : FaceLayout) :
    (c.mLayoutLookup = [] → c.parent.mLayouts = [] → L ≠ defaultLayout →
      (c.getLayoutIndex L).1 = 1 ∧
      (c.getLayoutIndex L).2.parent.mLayouts = [defaultLayout, L]) ∧
    ((c.mLayoutLookup = [] ∨ c.parent.mLayouts ≠ []) →
     (c.parent.mLayouts = [] ∨ c.parent.mLayouts.head? = some defaultLayout) →
     (c.getLayoutIndex L).1 ≠ INVALID_INDEX →
      (c.getLayoutIndex L).2.parent.mLayouts.head? = some defaultLayout) ∧
    (((c.getLayoutIndex L).2.getLayoutIndex L).1 = (c.getLayoutIndex L).1 ∧
     ((c.getLayoutIndex L).2.getLayoutIndex L).2 = (c.getLayoutIndex L).2) := by
  refine ⟨?_, ?_, ?_⟩
  · -- (i) first layout, non-default
    intro hlk hly hne
    have hf : mapFind layoutLT c.mLayoutLookup L = none := by rw [hlk]; rfl
    have hor := layoutLT_total_ne L defaultLayout hne
    have hins := insertDefault_needed c L hly hor
    have hgrow : ¬ (((IGACreator.insertDefaultIfNeeded c L).parent.mLayouts.length ≥ INVALID_INDEX - 1 ||
        (IGACreator.insertDefaultIfNeeded c L).parent.mLayouts.length ≥ vecMaxSize) = true) := by
      rw [hins]
      norm_num [vecMaxSize, INVALID_INDEX]
    have hres := getLayoutIndex_miss_ok c L hf hgrow
    rw [hins] at hres
    simp only at hres
    rw [hres]
    constructor <;> simp
  · -- (ii) index 0 stays the default layout after a successful call
    intro hinv1 hinv2 hok
    cases hf : mapFind layoutLT c.mLayoutLookup L with
    | some i =>
      have hlk : c.mLayoutLookup ≠ [] := by
        intro h
        rw [h] at hf
        simp [mapFind] at hf
      have hly : c.parent.mLayouts ≠ [] := by tauto
      have hhd : c.parent.mLayouts.head? = some defaultLayout := by tauto
      rw [getLayoutIndex_hit c L i hf]
      exact hhd
    | none =>
      by_cases hgrow : (((IGACreator.insertDefaultIfNeeded c L).parent.mLayouts.length ≥ INVALID_INDEX - 1 ||
          (IGACreator.insertDefaultIfNeeded c L).parent.mLayouts.length ≥ vecMaxSize) = true)
      · exfalso
        apply hok
        rw [getLayoutIndex_miss_fail c L hf hgrow]
      · have hres := getLayoutIndex_miss_ok c L hf hgrow
        rw [hres]
        simp only
        by_cases hcond : ((c.parent.mLayouts.isEmpty &&
            (layoutLT L defaultLayout || layoutLT defaultLayout L)) = true)
        · have hly : c.parent.mLayouts = [] := by
            simp only [Bool.and_eq_true, List.isEmpty_iff] at hcond
            exact hcond.1
          have hor : (layoutLT L defaultLayout || layoutLT defaultLayout L) = true := by
            simp only [Bool.and_eq_true] at hcond
            exact hcond.2
          rw [insertDefault_needed c L hly hor]
          simp
        · rw [insertDefault_skipped c L hcond]
          cases hle : c.parent.mLayouts with
          | nil =>
            have hLdef : L = defaultLayout := by
              by_contra hne
              apply hcond
              rw [hle]
              simpa using layoutLT_total_ne L defaultLayout hne
            simp [hLdef]
          | cons l0 rest =>
            have hhd : c.parent.mLayouts.head? = some defaultLayout := by
              rcases hinv2 with h | h
              · rw [h] at hle; cases hle
              · exact h
            rw [hle] at hhd
            simpa using hhd
  · -- (iii) repeated call: same index, unchanged state
    cases hf : mapFind layoutLT c.mLayoutLookup L with
    | some i =>
      rw [getLayoutIndex_hit c L i hf, getLayoutIndex_hit c L i hf]
      exact ⟨rfl, rfl⟩
    | none =>
      by_cases hcond : ((c.parent.mLayouts.isEmpty &&
          (layoutLT L defaultLayout || layoutLT defaultLayout L)) = true)
      · -- the default layout gets inserted first; the append cannot fail
        have hly : c.parent.mLayouts = [] := by
          simp only [Bool.and_eq_true, List.isEmpty_iff] at hcond
          exact hcond.1
        have hor : (layoutLT L defaultLayout || layoutLT defaultLayout L) = true := by
          simp only [Bool.and_eq_true] at hcond
          exact hcond.2
        have hins := insertDefault_needed c L hly hor
        have hgrow : ¬ (((IGACreator.insertDefaultIfNeeded c L).parent.mLayouts.length ≥ INVALID_INDEX - 1 ||
            (IGACreator.insertDefaultIfNeeded c L).parent.mLayouts.length ≥ vecMaxSize) = true) := by
          rw [hins]
          norm_num [vecMaxSize, INVALID_INDEX]
        have hneq : (!layoutLT defaultLayout L && !layoutLT L defaultLayout) = false := by
          rcases (Bool.or_eq_true _ _).mp hor with h | h <;> simp [h]
        have hres := getLayoutIndex_miss_ok c L hf hgrow
        rw [hins] at hres
        simp only at hres
        rw [hres]
        -- second call hits the freshly recorded entry
        have hf2 : mapFind layoutLT
            ((c.mLayoutLookup ++ [(defaultLayout, 0)]) ++ [(L, 1)]) L = some 1 :=
          mapFind_append_self layoutLT layoutLT_irrefl _ L 1
            (mapFind_append_other layoutLT _ L defaultLayout 0 hf hneq)
        rw [getLayoutIndex_hit _ L 1 (by simpa using hf2)]
        exact ⟨rfl, rfl⟩
      · have hins := insertDefault_skipped c L hcond
        by_cases hgrow : (((IGACreator.insertDefaultIfNeeded c L).parent.mLayouts.length ≥ INVALID_INDEX - 1 ||
            (IGACreator.insertDefaultIfNeeded c L).parent.mLayouts.length ≥ vecMaxSize) = true)
        · -- append fails both times, leaving the state untouched
          have hres := getLayoutIndex_miss_fail c L hf hgrow
          rw [hins] at hres
          rw [hres]
          have hres2 := getLayoutIndex_miss_fail c L hf hgrow
          rw [hins] at hres2
          rw [hres2]
          exact ⟨rfl, rfl⟩
        · have hres := getLayoutIndex_miss_ok c L hf hgrow
          rw [hins] at hres
          simp only at hres
          rw [hres]
          have hf2 : mapFind layoutLT
              (c.mLayoutLookup ++ [(L, c.parent.mLayouts.length)]) L =
              some c.parent.mLayouts.length :=
            mapFind_append_self layoutLT layoutLT_irrefl _ L _ hf
          rw [getLayoutIndex_hit _ L _ (by simpa using hf2)]
          exact ⟨rfl, rfl⟩
theorem getLayoutIndex_spec_witness :
    (({} : IGACreator).mLayoutLookup = [] → ({} : IGACreator).parent.mLayouts = [] →
      ({ side_range := [0, 1, 2, 3, 5] } : FaceLayout) ≠ defaultLayout →
      (IGACreator.getLayoutIndex {} { side_range := [0, 1, 2, 3, 5] }).1 = 1 ∧
      (IGACreator.getLayoutIndex {} { side_range := [0, 1, 2, 3, 5] }).2.parent.mLayouts =
        [defaultLayout, { side_range := [0, 1, 2, 3, 5] }]) ∧
    ((({} : IGACreator).mLayoutLookup = [] ∨ ({} : IGACreator).parent.mLayouts ≠ []) →
     (({} : IGACreator).parent.mLayouts = [] ∨
       ({} : IGACreator).parent.mLayouts.head? = some defaultLayout) →
     (IGACreator.getLayoutIndex {} { side_range := [0, 1, 2, 3, 5] }).1 ≠ INVALID_INDEX →
      (IGACreator.getLayoutIndex {} { side_range := [0, 1, 2, 3, 5] }).2.parent.mLayouts.head? =
        some defaultLayout) ∧
    (((IGACreator.getLayoutIndex {} { side_range := [0, 1, 2, 3, 5] }).2.getLayoutIndex
        { side_range := [0, 1, 2, 3, 5] }).1 =
      (IGACreator.getLayoutIndex {} { side_range := [0, 1, 2, 3, 5] }).1 ∧
     ((IGACreator.getLayoutIndex {} { side_range := [0, 1, 2, 3, 5] }).2.getLayoutIndex
        { side_range := [0, 1, 2, 3, 5] }).2 =
      (IGACreator.getLayoutIndex {} { side_range := [0, 1, 2, 3, 5] }).2) :=
  getLayoutIndex_spec {} { side_range := [0, 1, 2, 3, 5] }

/-! ## Claim C8: addEdge keeps edges and intervals in lock step -/

/-- C8: with a non-negative `knot_interval`, `addEdge` succeeds (returns
the new edge index) only when the index produced by appending to the
interval array equals the index produced by appending to the edge array,
and returns `INVALID_INDEX` when they differ; with a negative
`knot_interval`, `addEdge` fails whenever the interval array is already
non-empty, so a model never mixes uniform and explicit intervals. -/
theorem addEdge_spec (c : IGACreator) (e k : Nat) :
    (dge0 k = true →
      ((c.addEdge e k).1 ≠ INVALID_INDEX →
        (IGACreator.safeAppend c.parent.mEdges e).1 =
          (IGACreator.safeAppend c.parent.mIntervals k).1) ∧
      ((IGACreator.safeAppend c.parent.mEdges e).1 ≠
          (IGACreator.safeAppend c.parent.mIntervals k).1 →
        (c.addEdge e k).1 = INVALID_INDEX)) ∧
    (dlt0 k = true → c.parent.mIntervals ≠ [] →
      (c.addEdge e k).1 = INVALID_INDEX) := by
  rcases hse : IGACreator.safeAppend c.parent.mEdges e with ⟨ei, E⟩
  rcases hsi : IGACreator.safeAppend c.parent.mIntervals k with ⟨vi, V⟩
  constructor
  · intro hge
    have hred : (c.addEdge e k).1 = if ei = vi then ei else INVALID_INDEX := by
      by_cases hev : ei = vi <;>
        simp [IGACreator.addEdge, hse, hsi, hge, hev]
    rw [hred]
    constructor
    · intro hok
      by_cases hev : ei = vi
      · exact hev
      · rw [if_neg hev] at hok
        exact absurd rfl hok
    · intro hne
      rw [if_neg hne]
  · intro hlt hne
    have hge : dge0 k = false := dge0_of_dlt0 k hlt
    have hie : c.parent.mIntervals.isEmpty = false := by
      simpa [List.isEmpty_iff] using hne
    simp [IGACreator.addEdge, hse, hge, hie]

theorem addEdge_spec_witness :
    (dge0 oneBits = true →
      ((IGACreator.addEdge {} 0 oneBits).1 ≠ INVALID_INDEX →
        (IGACreator.safeAppend ({} : IGACreator).parent.mEdges 0).1 =
          (IGACreator.safeAppend ({} : IGACreator).parent.mIntervals oneBits).1) ∧
      ((IGACreator.safeAppend ({} : IGACreator).parent.mEdges 0).1 ≠
          (IGACreator.safeAppend ({} : IGACreator).parent.mIntervals oneBits).1 →
        (IGACreator.addEdge {} 0 oneBits).1 = INVALID_INDEX)) ∧
    (dlt0 oneBits = true → ({} : IGACreator).parent.mIntervals ≠ [] →
      (IGACreator.addEdge {} 0 oneBits).1 = INVALID_INDEX) :=
  addEdge_spec {} 0 oneBits

/-! ## Claim C4: addExplicitPiece and s_order = 0

`IGACreator::addExplicitPiece` computes
`t_order = static_cast<int>(coeffs.size()) / s_order` before any check on
`s_order`; for `s_order = 0` that is an integer division by zero —
undefined behaviour in C++ (typically a crash), not the `INVALID_INDEX`
return the documented error convention promises.  The model returns
`none` exactly on that path. -/

/-- C4: evaluating `addExplicitPiece` at the failing input
`s_order = 0`, `pt_index = 0`, `coeffs = [1.0]` hits the division by zero
(`none`), instead of returning `INVALID_INDEX` as the specified error
convention requires. -/
theorem addExplicitPiece_div_by_zero :
    IGACreator.addExplicitPiece {} 0 0 [oneBits] = none := by
  decide

/-! ## Claim C2: the validator's per-element edge-count check -/

/-- A model whose single element claims 5 edges under `layout_index` 0
while no layouts are stored: its resolved layout is the default
`{0,1,2,3,4}` with `side_range[4] = 4`, so invariant 8 is violated. -/
def gFiveEdges : IGAData :=
  { mEdges := [INVALID_INDEX, INVALID_INDEX, INVALID_INDEX, INVALID_INDEX, INVALID_INDEX],
    mElems := [{ piece_end_index := 0, layout_index := 0, edge_end_index := 5 }] }

/-- C2 counterexample: `gFiveEdges` gives element 0 five attributed edges
while `side_range[4]` of its resolved layout (the default layout, since
`layout_index` is 0 and no layouts are stored) is 4 — yet `isValid`
returns `true`: the per-element edge-count check is skipped whenever
`layout_index` is not an index into the stored layout array. -/
theorem isValid_misses_unstored_layout_edge_count :
    IGAData.isValid gFiveEdges = true ∧
    IGAData.edgeEnd gFiveEdges 0 - IGAData.edgeBegin gFiveEdges 0 ≠
      (IGAData.layout gFiveEdges
        (gFiveEdges.mElems.getD 0 {}).layout_index).side_range.getD 4 0 := by
  decide

theorem elemsOkAux_edge_count (layouts : List FaceLayout) (el pl : Nat)
    (es : List Elem) (le lp : Nat)
    (h : IGAData.elemsOkAux layouts el pl le lp es = true) :
    ∀ i, i < es.length →
      (es.getD i {}).layout_index < layouts.length →
      (es.getD i {}).edge_end_index -
        (if i = 0 then le else (es.getD (i - 1) {}).edge_end_index) =
      (layouts.getD (es.getD i {}).layout_index {}).side_range.getD 4 0 := by
  induction es generalizing le lp with
  | nil =>
    intro i hi
    simp at hi
  | cons e rest ih =>
    intro i hi hl
    simp only [IGAData.elemsOkAux, Bool.and_eq_true] at h
    obtain ⟨⟨⟨⟨⟨⟨h1, h2⟩, h3⟩, h4⟩, h5⟩, h6⟩, h7⟩ := h
    cases i with
    | zero =>
      simp only [List.getD_cons_zero] at hl ⊢
      rw [if_pos hl] at h6
      simpa using h6
    | succ j =>
      have hj := ih e.edge_end_index e.piece_end_index h7 j
        (by simpa using hi) (by simpa using hl)
      cases j with
      | zero => simpa using hj
      | succ s => simpa using hj

/-- C2 (amended): whenever `isValid` returns `true`, every element whose
`layout_index` lies within the stored layout array has an attributed edge
count (edgeEnd minus edgeBegin) equal to `side_range[4]` of that stored
layout.  For an element whose `layout_index` is not a stored index — in
particular `layout_index` 0 when no layouts are stored at all — `isValid`
performs no edge-count comparison against the resolved (default) layout,
as `gFiveEdges` shows. -/
theorem isValid_edge_count_stored_layout (g : IGAData) (hv : g.isValid = true)
    (i : Nat) (hi : i < g.mElems.length)
    (hl : (g.mElems.getD i {}).layout_index < g.mLayouts.length) :
    g.edgeEnd i - g.edgeBegin i =
      (g.mLayouts.getD (g.mElems.getD i {}).layout_index {}).side_range.getD 4 0 := by
  have hnot : ¬ (i ≥ g.mElems.length) := by omega
  have he : g.elemsOk = true := by
    simp only [IGAData.isValid, Bool.and_eq_true] at hv
    exact hv.2
  have hcnt := elemsOkAux_edge_count g.mLayouts g.mEdges.length g.mPieces.length
    g.mElems 0 0 he i hi hl
  rw [IGAData.edgeEnd, IGAData.edgeBegin, if_neg hnot, if_neg hnot]
  by_cases h0 : i = 0
  · subst h0
    rw [if_pos rfl]
    rw [if_pos rfl] at hcnt
    exact hcnt
  · rw [if_neg h0]
    rw [if_neg h0] at hcnt
    exact hcnt

/-- A small valid model with one stored (default) layout and one element
with four boundary edges. -/
def gFourEdges : IGAData :=
  { mEdges := [INVALID_INDEX, INVALID_INDEX, INVALID_INDEX, INVALID_INDEX],
    mLayouts := [defaultLayout],
    mElems := [{ piece_end_index := 0, layout_index := 0, edge_end_index := 4 }] }

theorem isValid_edge_count_stored_layout_witness :
    IGAData.isValid gFourEdges = true ∧ 0 < gFourEdges.mElems.length ∧
    (gFourEdges.mElems.getD 0 {}).layout_index < gFourEdges.mLayouts.length ∧
    IGAData.edgeEnd gFourEdges 0 - IGAData.edgeBegin gFourEdges 0 =
      (gFourEdges.mLayouts.getD
        (gFourEdges.mElems.getD 0 {}).layout_index {}).side_range.getD 4 0 :=
  ⟨by decide, by decide, by decide,
    isValid_edge_count_stored_layout gFourEdges (by decide) 0 (by decide) (by decide)⟩

/-! ## Claim C5: a short read at a block-header boundary is end-of-stream -/

/-- C5: at any point of the reader loop — after the magic, the IGAFILE
header block and any number of complete blocks have been consumed — a
stream too short to supply a full 32-byte block header terminates the
decode successfully, keeping every field populated so far (the loop
returns the accumulated geometry unchanged); it is not reported as an
error. -/
theorem readLoop_short_header_succeeds (g : IGAData) (s : List Nat) (fuel : Nat)
    (h : s.length < 32) : readLoop (fuel + 1) g s = some g := by
  have hrd : readData 32 s = none := by
    unfold readData
    rw [if_neg (by omega)]
  simp [readLoop, hrd]

theorem readLoop_short_header_succeeds_witness :
    ([(10 : Nat), 66, 76] : List Nat).length < 32 ∧
    readLoop 1 gFourEdges [10, 66, 76] = some gFourEdges :=
  ⟨by decide, readLoop_short_header_succeeds gFourEdges [10, 66, 76] 0 (by decide)⟩

/-! ## Claim C1: write/read round trip

The lemmas below invert each serialisation step: exact reads split the
stream, the struct parsers invert the writers' byte layouts, `readBlock`
inverts `writeBlock`'s payload framing, and the reader loop consumes one
written block per iteration. -/

theorem readData_exact (xs r : List Nat) :
    readData xs.length (xs ++ r) = some (xs, r) := by
  unfold readData
  rw [if_pos (by simp)]
  rw [List.take_left, List.drop_left]

theorem readData_le (n : Nat) (s a b : List Nat) (h : readData n s = some (a, b)) :
    b.length ≤ s.length := by
  unfold readData at h
  split at h
  · cases h
    simp
  · cases h

theorem leWord_leBytes8 (n : Nat) (h : n < 2 ^ 64) : leWord (leBytes 8 n) = n := by
  rw [leWord_leBytes]
  have : (256 : Nat) ^ 8 = 2 ^ 64 := by norm_num
  rw [this]
  exact Nat.mod_eq_of_lt h

theorem parseU64s_leBytes (a : Nat) (r : List Nat) :
    parseU64s (leBytes 8 a ++ r) = leWord (leBytes 8 a) :: parseU64s r := rfl

theorem parseU32s_leBytes (a : Nat) (r : List Nat) :
    parseU32s (leBytes 4 a ++ r) = leWord (leBytes 4 a) :: parseU32s r := rfl

theorem leWord_leBytes4 (n : Nat) (h : n < 2 ^ 32) : leWord (leBytes 4 n) = n := by
  rw [leWord_leBytes]
  have : (256 : Nat) ^ 4 = 2 ^ 32 := by norm_num
  rw [this]
  exact Nat.mod_eq_of_lt h

theorem parseU64s_serDoubles (xs : List Nat) (h : ∀ x ∈ xs, x < 2 ^ 64) (r : List Nat) :
    parseU64s (serDoubles xs ++ r) = xs ++ parseU64s r := by
  induction xs with
  | nil => simp [serDoubles]
  | cons x xs ih =>
    have hx : x < 2 ^ 64 := h x (List.mem_cons_self _ _)
    have hxs : ∀ y ∈ xs, y < 2 ^ 64 := fun y hy => h y (List.mem_cons_of_mem _ hy)
    simp only [serDoubles, List.flatMap_cons, List.append_assoc]
    rw [parseU64s_leBytes, leWord_leBytes8 x hx]
    rw [show xs.flatMap (leBytes 8) = serDoubles xs from rfl]
    rw [ih hxs]
    rfl

theorem parseU32s_serU32s (xs : List Nat) (h : ∀ x ∈ xs, x < 2 ^ 32) (r : List Nat) :
    parseU32s (serU32s xs ++ r) = xs ++ parseU32s r := by
  induction xs with
  | nil => simp [serU32s]
  | cons x xs ih =>
    have hx : x < 2 ^ 32 := h x (List.mem_cons_self _ _)
    have hxs : ∀ y ∈ xs, y < 2 ^ 32 := fun y hy => h y (List.mem_cons_of_mem _ hy)
    simp only [serU32s, List.flatMap_cons, List.append_assoc]
    rw [parseU32s_leBytes, leWord_leBytes4 x hx]
    rw [show xs.flatMap (leBytes 4) = serU32s xs from rfl]
    rw [ih hxs]
    rfl

/-- The words of a `Point3d[]` payload, before byte serialisation. -/
def pointDoubles (ps : List Point3d) : List Nat :=
  ps.flatMap fun p => [p.x, p.y, p.z, p.w]

/-- The words of a `Piece2D[]` payload. -/
def pieceWords (ps : List Piece2D) : List Nat :=
  ps.flatMap fun p => [p.st_order, p.s_index, p.maybe_t_index, p.pt_index]

/-- The words of a `FaceLayout[]` payload. -/
def layoutWords (ls : List FaceLayout) : List Nat :=
  ls.flatMap fun l => l.side_range

/-- The words of an `Elem[]` payload. -/
def elemWords (es : List Elem) : List Nat :=
  es.flatMap fun e => [e.piece_end_index, e.layout_index, e.edge_end_index]

theorem serPoints_eq (ps : List Point3d) : serPoints ps = serDoubles (pointDoubles ps) := by
  induction ps with
  | nil => rfl
  | cons p ps ih =>
    simp only [serPoints, pointDoubles, serDoubles, List.flatMap_cons] at *
    rw [ih]
    simp [List.append_assoc]

theorem serPieces_eq (ps : List Piece2D) : serPieces ps = serU32s (pieceWords ps) := by
  induction ps with
  | nil => rfl
  | cons p ps ih =>
    simp only [serPieces, pieceWords, serU32s, List.flatMap_cons] at *
    rw [ih]
    simp [List.append_assoc]

theorem serLayouts_eq (ls : List FaceLayout) : serLayouts ls = serU32s (layoutWords ls) := by
  induction ls with
  | nil => rfl
  | cons l ls ih =>
    simp only [serLayouts, layoutWords, serU32s, List.flatMap_cons, List.flatMap_append] at *
    rw [ih]

theorem serElems_eq (es : List Elem) : serElems es = serU32s (elemWords es) := by
  induction es with
  | nil => rfl
  | cons e es ih =>
    simp only [serElems, elemWords, serU32s, List.flatMap_cons] at *
    rw [ih]
    simp [List.append_assoc]

theorem groupPoints_append (ps : List Point3d) (w : List Nat) :
    groupPoints (pointDoubles ps ++ w) = ps ++ groupPoints w := by
  induction ps with
  | nil => rfl
  | cons p ps ih =>
    obtain ⟨x, y, z, q⟩ := p
    simp only [pointDoubles, List.flatMap_cons, List.cons_append, List.append_assoc,
      List.nil_append]
    rw [show groupPoints (x :: y :: z :: q :: (ps.flatMap (fun p => [p.x, p.y, p.z, p.w]) ++ w)) =
      ⟨x, y, z, q⟩ :: groupPoints (pointDoubles ps ++ w) from rfl]
    rw [ih]

theorem groupPieces_append (ps : List Piece2D) (w : List Nat) :
    groupPieces (pieceWords ps ++ w) = ps ++ groupPieces w := by
  induction ps with
  | nil => rfl
  | cons p ps ih =>
    obtain ⟨a, b, c, d⟩ := p
    simp only [pieceWords, List.flatMap_cons, List.cons_append, List.append_assoc,
      List.nil_append]
    rw [show groupPieces (a :: b :: c :: d ::
        (ps.flatMap (fun p => [p.st_order, p.s_index, p.maybe_t_index, p.pt_index]) ++ w)) =
      ⟨a, b, c, d⟩ :: groupPieces (pieceWords ps ++ w) from rfl]
    rw [ih]

theorem groupElems_append (es : List Elem) (w : List Nat) :
    groupElems (elemWords es ++ w) = es ++ groupElems w := by
  induction es with
  | nil => rfl
  | cons e es ih =>
    obtain ⟨a, b, c⟩ := e
    simp only [elemWords, List.flatMap_cons, List.cons_append, List.append_assoc,
      List.nil_append]
    rw [show groupElems (a :: b :: c ::
        (es.flatMap (fun e => [e.piece_end_index, e.layout_index, e.edge_end_index]) ++ w)) =
      ⟨a, b, c⟩ :: groupElems (elemWords es ++ w) from rfl]
    rw [ih]

theorem groupLayouts_append (ls : List FaceLayout)
    (h : ∀ l ∈ ls, l.side_range.length = 5) (w : List Nat) :
    groupLayouts (layoutWords ls ++ w) = ls ++ groupLayouts w := by
  induction ls with
  | nil => rfl
  | cons l ls ih =>
    have h5 : l.side_range.length = 5 := (h l (List.mem_cons_self _ _))
    have hls : ∀ x ∈ ls, x.side_range.length = 5 :=
      fun x hx => h x (List.mem_cons_of_mem _ hx)
    obtain ⟨sr⟩ := l
    simp only at h5
    match sr, h5 with
    | [a, b, c, d, e], _ =>
      simp only [layoutWords, List.flatMap_cons, List.cons_append, List.append_assoc,
        List.nil_append]
      rw [show groupLayouts (a :: b :: c :: d :: e :: (ls.flatMap (fun l => l.side_range) ++ w)) =
        ⟨[a, b, c, d, e]⟩ :: groupLayouts (layoutWords ls ++ w) from rfl]
      rw [ih hls]

/-! Parse-of-serialise round trips for whole payloads, and payload
lengths. -/

theorem parseU64s_ser (xs : List Nat) (h : ∀ x ∈ xs, x < 2 ^ 64) :
    parseU64s (serDoubles xs) = xs := by
  have := parseU64s_serDoubles xs h []
  simpa [show parseU64s [] = ([] : List Nat) from rfl] using this

theorem parseU32s_ser (xs : List Nat) (h : ∀ x ∈ xs, x < 2 ^ 32) :
    parseU32s (serU32s xs) = xs := by
  have := parseU32s_serU32s xs h []
  simpa [show parseU32s [] = ([] : List Nat) from rfl] using this

theorem parsePoints_ser (ps : List Point3d)
    (h : ∀ p ∈ ps, p.x < 2 ^ 64 ∧ p.y < 2 ^ 64 ∧ p.z < 2 ^ 64 ∧ p.w < 2 ^ 64) :
    parsePoints (serPoints ps) = ps := by
  have hw : ∀ x ∈ pointDoubles ps, x < 2 ^ 64 := by
    intro x hx
    simp only [pointDoubles, List.mem_flatMap] at hx
    obtain ⟨p, hp, hxp⟩ := hx
    have := h p hp
    simp only [List.mem_cons, List.not_mem_nil, or_false] at hxp
    rcases hxp with rfl | rfl | rfl | rfl
    · exact this.1
    · exact this.2.1
    · exact this.2.2.1
    · exact this.2.2.2
  unfold parsePoints
  rw [serPoints_eq, parseU64s_ser _ hw]
  have := groupPoints_append ps []
  simpa [show groupPoints [] = ([] : List Point3d) from rfl] using this

theorem parsePieces_ser (ps : List Piece2D)
    (h : ∀ p ∈ ps, p.st_order < 2 ^ 32 ∧ p.s_index < 2 ^ 32 ∧
      p.maybe_t_index < 2 ^ 32 ∧ p.pt_index < 2 ^ 32) :
    parsePieces (serPieces ps) = ps := by
  have hw : ∀ x ∈ pieceWords ps, x < 2 ^ 32 := by
    intro x hx
    simp only [pieceWords, List.mem_flatMap] at hx
    obtain ⟨p, hp, hxp⟩ := hx
    have := h p hp
    simp only [List.mem_cons, List.not_mem_nil, or_false] at hxp
    rcases hxp with rfl | rfl | rfl | rfl
    · exact this.1
    · exact this.2.1
    · exact this.2.2.1
    · exact this.2.2.2
  unfold parsePieces
  rw [serPieces_eq, parseU32s_ser _ hw]
  have := groupPieces_append ps []
  simpa [show groupPieces [] = ([] : List Piece2D) from rfl] using this

theorem parseLayouts_ser (ls : List FaceLayout)
    (h : ∀ l ∈ ls, l.side_range.length = 5 ∧ ∀ v ∈ l.side_range, v < 2 ^ 32) :
    parseLayouts (serLayouts ls) = ls := by
  have hw : ∀ x ∈ layoutWords ls, x < 2 ^ 32 := by
    intro x hx
    simp only [layoutWords, List.mem_flatMap] at hx
    obtain ⟨l, hl, hxl⟩ := hx
    exact (h l hl).2 x hxl
  unfold parseLayouts
  rw [serLayouts_eq, parseU32s_ser _ hw]
  have := groupLayouts_append ls (fun l hl => (h l hl).1) []
  simpa [show groupLayouts [] = ([] : List FaceLayout) from rfl] using this

theorem parseElems_ser (es : List Elem)
    (h : ∀ e ∈ es, e.piece_end_index < 2 ^ 32 ∧ e.layout_index < 2 ^ 32 ∧
      e.edge_end_index < 2 ^ 32) :
    parseElems (serElems es) = es := by
  have hw : ∀ x ∈ elemWords es, x < 2 ^ 32 := by
    intro x hx
    simp only [elemWords, List.mem_flatMap] at hx
    obtain ⟨e, he, hxe⟩ := hx
    have := h e he
    simp only [List.mem_cons, List.not_mem_nil, or_false] at hxe
    rcases hxe with rfl | rfl | rfl
    · exact this.1
    · exact this.2.1
    · exact this.2.2
  unfold parseElems
  rw [serElems_eq, parseU32s_ser _ hw]
  have := groupElems_append es []
  simpa [show groupElems [] = ([] : List Elem) from rfl] using this

theorem serDoubles_length (xs : List Nat) : (serDoubles xs).length = 8 * xs.length := by
  induction xs with
  | nil => rfl
  | cons x xs ih =>
    simp only [serDoubles, List.flatMap_cons, List.length_append, leBytes_length,
      List.length_cons] at *
    omega

theorem serU32s_length (xs : List Nat) : (serU32s xs).length = 4 * xs.length := by
  induction xs with
  | nil => rfl
  | cons x xs ih =>
    simp only [serU32s, List.flatMap_cons, List.length_append, leBytes_length,
      List.length_cons] at *
    omega

theorem pointDoubles_length (ps : List Point3d) :
    (pointDoubles ps).length = 4 * ps.length := by
  induction ps with
  | nil => rfl
  | cons p ps ih =>
    simp only [pointDoubles, List.flatMap_cons, List.length_append, List.length_cons,
      List.length_nil] at *
    omega

theorem pieceWords_length (ps : List Piece2D) :
    (pieceWords ps).length = 4 * ps.length := by
  induction ps with
  | nil => rfl
  | cons p ps ih =>
    simp only [pieceWords, List.flatMap_cons, List.length_append, List.length_cons,
      List.length_nil] at *
    omega

theorem layoutWords_length (ls : List FaceLayout)
    (h : ∀ l ∈ ls, l.side_range.length = 5) :
    (layoutWords ls).length = 5 * ls.length := by
  induction ls with
  | nil => rfl
  | cons l ls ih =>
    have h5 := h l (List.mem_cons_self _ _)
    have := ih (fun x hx => h x (List.mem_cons_of_mem _ hx))
    simp only [layoutWords, List.flatMap_cons, List.length_append, List.length_cons] at *
    omega

theorem elemWords_length (es : List Elem) :
    (elemWords es).length = 3 * es.length := by
  induction es with
  | nil => rfl
  | cons e es ih =>
    simp only [elemWords, List.flatMap_cons, List.length_append, List.length_cons,
      List.length_nil] at *
    omega

theorem serPoints_length (ps : List Point3d) :
    (serPoints ps).length = 32 * ps.length := by
  rw [serPoints_eq, serDoubles_length, pointDoubles_length]
  ring

theorem serPieces_length (ps : List Piece2D) :
    (serPieces ps).length = 16 * ps.length := by
  rw [serPieces_eq, serU32s_length, pieceWords_length]
  ring

theorem serLayouts_length (ls : List FaceLayout)
    (h : ∀ l ∈ ls, l.side_range.length = 5) :
    (serLayouts ls).length = 20 * ls.length := by
  rw [serLayouts_eq, serU32s_length, layoutWords_length ls h]
  ring

theorem serElems_length (es : List Elem) :
    (serElems es).length = 12 * es.length := by
  rw [serElems_eq, serU32s_length, elemWords_length]
  ring

/-! `readBlock` inverts the payload framing that `writeBlock` emits. -/

theorem readBlockPayload_roundtrip (parse : List Nat → List α)
    (payload rest : List Nat) (hmax : payload.length < IGA_MAX_ALLOC)
    (hnil : parse [] = []) :
    readBlockPayload parse [] payload.length (payload ++ rest) =
      some (parse payload, rest) := by
  unfold readBlockPayload
  by_cases hz : payload.length = 0
  · have hpe : payload = [] := List.eq_nil_of_length_eq_zero hz
    subst hpe
    simp [hnil]
  · rw [if_neg hz]
    rw [if_neg (by omega : ¬ (IGA_MAX_ALLOC ≤ payload.length))]
    rw [readData_exact]

theorem readBlock_roundtrip (k : Nat) (parse : List Nat → List α)
    (payload rest : List Nat)
    (hmod : payload.length % k = 0) (hmax : payload.length < IGA_MAX_ALLOC)
    (hnil : parse [] = []) :
    readBlock k parse [] payload.length
      (payload ++ leBytes 8 payload.length ++ rest) = some (parse payload, rest) := by
  have hlen64 : payload.length < 2 ^ 64 := by
    have : IGA_MAX_ALLOC < 2 ^ 64 := by norm_num [IGA_MAX_ALLOC]
    omega
  unfold readBlock
  rw [if_neg (by simp [hmod])]
  rw [List.append_assoc, readBlockPayload_roundtrip parse payload _ hmax hnil]
  dsimp only
  have hrd2 : readData 8 (leBytes 8 payload.length ++ rest) =
      some (leBytes 8 payload.length, rest) := by
    rw [show (8 : Nat) = (leBytes 8 payload.length).length from
      (leBytes_length 8 payload.length).symm]
    exact readData_exact _ _
  rw [hrd2]
  simp [leWord_leBytes8 _ hlen64]

theorem readBlockPayload_le (parse : List Nat → List α) (old : List α)
    (len : Nat) (s : List Nat) (v : List α) (s' : List Nat)
    (h : readBlockPayload parse old len s = some (v, s')) : s'.length ≤ s.length := by
  unfold readBlockPayload at h
  split at h
  · cases h
    exact le_refl _
  · split at h
    · cases h
    · cases hrd : readData len s with
      | none => rw [hrd] at h; cases h
      | some p =>
        obtain ⟨bs, s1⟩ := p
        rw [hrd] at h
        cases h
        exact readData_le len s _ _ hrd

theorem readBlock_le (k : Nat) (parse : List Nat → List α) (old : List α)
    (len : Nat) (s : List Nat) (v : List α) (s' : List Nat)
    (h : readBlock k parse old len s = some (v, s')) : s'.length ≤ s.length := by
  unfold readBlock at h
  split at h
  · cases h
  · cases hp : readBlockPayload parse old len s with
    | none => rw [hp] at h; cases h
    | some p =>
      obtain ⟨val, s1⟩ := p
      rw [hp] at h
      dsimp only at h
      cases hrd : readData 8 s1 with
      | none => rw [hrd] at h; cases h
      | some q =>
        obtain ⟨fl, s2⟩ := q
        rw [hrd] at h
        dsimp only at h
        split at h
        · cases h
          exact le_trans (readData_le 8 s1 _ _ hrd)
            (readBlockPayload_le parse old len s _ _ hp)
        · cases h


/-! The reader loop consumes one written block per iteration. -/

theorem parseHeader_concat (t i l : Nat) :
    parseHeader (markerBytes ++ leBytes 8 t ++ leBytes 8 i ++ leBytes 8 l) =
      ⟨markerBytes, leWord (leBytes 8 t), leWord (leBytes 8 i), leWord (leBytes 8 l)⟩ := rfl

theorem dispatch_le (g : IGAData) (tag len : Nat) (s : List Nat)
    (g' : IGAData) (s' : List Nat) (h : dispatch g tag len s = some (g', s')) :
    s'.length ≤ s.length := by
  unfold dispatch at h
  split at h
  rotate_left
  split at h
  rotate_left
  split at h
  rotate_left
  split at h
  rotate_left
  split at h
  rotate_left
  split at h
  rotate_left
  split at h
  rotate_left
  split at h
  all_goals {
    cases hb : readBlock _ _ _ len s with
    | none =>
      rw [hb] at h
      cases h
    | some p =>
      obtain ⟨v, s1⟩ := p
      rw [hb] at h
      cases h
      exact readBlock_le _ _ _ _ _ _ _ hb
  }

theorem readLoop_fuel_eq (f1 f2 : Nat) (g : IGAData) (s : List Nat)
    (h1 : s.length < f1) (h2 : s.length < f2) :
    readLoop f1 g s = readLoop f2 g s := by
  induction f1 generalizing f2 g s with
  | zero => omega
  | succ f ih =>
    obtain ⟨f2p, rfl⟩ : ∃ x, f2 = x + 1 := ⟨f2 - 1, by omega⟩
    unfold readLoop
    cases hrd : readData 32 s with
    | none => rfl
    | some p =>
      obtain ⟨hb, s1⟩ := p
      have hs1 : s1.length ≤ s.length - 32 := by
        unfold readData at hrd
        split at hrd
        · cases hrd
          simp
        · cases hrd
      have h32 : 32 ≤ s.length := by
        unfold readData at hrd
        split at hrd
        · omega
        · cases hrd
      dsimp only
      split
      · rfl
      · cases hdp : dispatch g (parseHeader hb).tag (parseHeader hb).block_len s1 with
        | none => rfl
        | some q =>
          obtain ⟨g2, s2⟩ := q
          have := dispatch_le g _ _ s1 g2 s2 hdp
          exact ih f2p g2 s2 (by omega) (by omega)

theorem readLoop_block (fuel : Nat) (g g' : IGAData) (t payload rest : List Nat)
    (ht : tagValue t < 2 ^ 64) (hlen : payload.length < 2 ^ 64)
    (hd : dispatch g (tagValue t) payload.length
        (payload ++ leBytes 8 payload.length ++ rest) = some (g', rest))
    (hfuel : (writeBlockBytes t payload ++ rest).length < fuel) :
    readLoop fuel g (writeBlockBytes t payload ++ rest) =
      readLoop (rest.length + 1) g' rest := by
  obtain ⟨f, rfl⟩ : ∃ f, fuel = f + 1 := ⟨fuel - 1, by omega⟩
  have hstream : writeBlockBytes t payload ++ rest =
      (markerBytes ++ leBytes 8 (tagValue t) ++ leBytes 8 0 ++ leBytes 8 payload.length) ++
      (payload ++ leBytes 8 payload.length ++ rest) := by
    simp [writeBlockBytes, List.append_assoc]
  have h32 : (markerBytes ++ leBytes 8 (tagValue t) ++ leBytes 8 0 ++
      leBytes 8 payload.length).length = 32 := by
    simp [markerBytes, leBytes_length]
  have hrd : readData 32 (writeBlockBytes t payload ++ rest) =
      some (markerBytes ++ leBytes 8 (tagValue t) ++ leBytes 8 0 ++ leBytes 8 payload.length,
        payload ++ leBytes 8 payload.length ++ rest) := by
    rw [hstream, ← h32]
    exact readData_exact _ _
  unfold readLoop
  rw [hrd]
  dsimp only
  rw [parseHeader_concat]
  rw [if_neg (by simp)]
  dsimp only
  rw [leWord_leBytes8 _ ht, leWord_leBytes8 _ hlen, hd]
  dsimp only
  have hflen : rest.length < f := by
    have : (writeBlockBytes t payload ++ rest).length =
        (writeBlockBytes t payload).length + rest.length := by simp
    have hB : (writeBlockBytes t payload).length = 40 + payload.length := by
      simp [writeBlockBytes, markerBytes, leBytes_length]
      omega
    omega
  exact readLoop_fuel_eq f (rest.length + 1) g' rest hflen (by omega)

/-! One dispatch lemma per known tag: the reader's branch for that tag
consumes exactly the payload the writer emitted and assigns the parsed
field. -/

theorem dispatch_SRFTYPE (g : IGAData) (bytes rest : List Nat)
    (hmax : bytes.length < IGA_MAX_ALLOC) :
    dispatch g (tagValue tagSRFTYPE) bytes.length
      (bytes ++ leBytes 8 bytes.length ++ rest) =
      some ({ ({} : IGAData) with mSrfType := bytes }, rest) := by
  unfold dispatch
  rw [if_pos rfl]
  rw [readBlock_roundtrip 1 (fun bs => bs) bytes rest (Nat.mod_one _) hmax rfl]
  rfl

theorem dispatch_VECDICT (g : IGAData) (xs rest : List Nat)
    (hx : ∀ x ∈ xs, x < 2 ^ 64) (hg : g.mCoeffs = [])
    (hmax : (serDoubles xs).length < IGA_MAX_ALLOC) :
    dispatch g (tagValue tagVECDICT) (serDoubles xs).length
      (serDoubles xs ++ leBytes 8 (serDoubles xs).length ++ rest) =
      some ({ g with mCoeffs := xs }, rest) := by
  unfold dispatch
  rw [if_neg (by decide), if_pos rfl, hg]
  rw [readBlock_roundtrip 8 parseU64s (serDoubles xs) rest
    (by rw [serDoubles_length]; omega) hmax rfl]
  rw [parseU64s_ser xs hx]
  rfl

theorem dispatch_PT3DW (g : IGAData) (ps : List Point3d) (rest : List Nat)
    (hp : ∀ p ∈ ps, p.x < 2 ^ 64 ∧ p.y < 2 ^ 64 ∧ p.z < 2 ^ 64 ∧ p.w < 2 ^ 64)
    (hg : g.mPoints = [])
    (hmax : (serPoints ps).length < IGA_MAX_ALLOC) :
    dispatch g (tagValue tagPT3DW) (serPoints ps).length
      (serPoints ps ++ leBytes 8 (serPoints ps).length ++ rest) =
      some ({ g with mPoints := ps }, rest) := by
  unfold dispatch
  rw [if_neg (by decide), if_neg (by decide), if_pos rfl, hg]
  rw [readBlock_roundtrip 32 parsePoints (serPoints ps) rest
    (by rw [serPoints_length]; omega) hmax rfl]
  rw [parsePoints_ser ps hp]
  rfl

theorem dispatch_2DPIECE (g : IGAData) (ps : List Piece2D) (rest : List Nat)
    (hp : ∀ p ∈ ps, p.st_order < 2 ^ 32 ∧ p.s_index < 2 ^ 32 ∧
      p.maybe_t_index < 2 ^ 32 ∧ p.pt_index < 2 ^ 32)
    (hg : g.mPieces = [])
    (hmax : (serPieces ps).length < IGA_MAX_ALLOC) :
    dispatch g (tagValue tag2DPIECE) (serPieces ps).length
      (serPieces ps ++ leBytes 8 (serPieces ps).length ++ rest) =
      some ({ g with mPieces := ps }, rest) := by
  unfold dispatch
  rw [if_neg (by decide), if_neg (by decide), if_neg (by decide), if_pos rfl, hg]
  rw [readBlock_roundtrip 16 parsePieces (serPieces ps) rest
    (by rw [serPieces_length]; omega) hmax rfl]
  rw [parsePieces_ser ps hp]
  rfl

theorem dispatch_LAYOUT (g : IGAData) (ls : List FaceLayout) (rest : List Nat)
    (hl : ∀ l ∈ ls, l.side_range.length = 5 ∧ ∀ v ∈ l.side_range, v < 2 ^ 32)
    (hg : g.mLayouts = [])
    (hmax : (serLayouts ls).length < IGA_MAX_ALLOC) :
    dispatch g (tagValue tagLAYOUT) (serLayouts ls).length
      (serLayouts ls ++ leBytes 8 (serLayouts ls).length ++ rest) =
      some ({ g with mLayouts := ls }, rest) := by
  unfold dispatch
  rw [if_neg (by decide), if_neg (by decide), if_neg (by decide), if_neg (by decide),
    if_pos rfl, hg]
  rw [readBlock_roundtrip 20 parseLayouts (serLayouts ls) rest
    (by rw [serLayouts_length ls (fun l hx => (hl l hx).1)]; omega) hmax rfl]
  rw [parseLayouts_ser ls hl]
  rfl

theorem dispatch_EDGES (g : IGAData) (xs : List Nat) (rest : List Nat)
    (hx : ∀ x ∈ xs, x < 2 ^ 32) (hg : g.mEdges = [])
    (hmax : (serU32s xs).length < IGA_MAX_ALLOC) :
    dispatch g (tagValue tagEDGES) (serU32s xs).length
      (serU32s xs ++ leBytes 8 (serU32s xs).length ++ rest) =
      some ({ g with mEdges := xs }, rest) := by
  unfold dispatch
  rw [if_neg (by decide), if_neg (by decide), if_neg (by decide), if_neg (by decide),
    if_neg (by decide), if_pos rfl, hg]
  rw [readBlock_roundtrip 4 parseU32s (serU32s xs) rest
    (by rw [serU32s_length]; omega) hmax rfl]
  rw [parseU32s_ser xs hx]
  rfl

theorem dispatch_KNOTINT (g : IGAData) (xs rest : List Nat)
    (hx : ∀ x ∈ xs, x < 2 ^ 64) (hg : g.mIntervals = [])
    (hmax : (serDoubles xs).length < IGA_MAX_ALLOC) :
    dispatch g (tagValue tagKNOTINT) (serDoubles xs).length
      (serDoubles xs ++ leBytes 8 (serDoubles xs).length ++ rest) =
      some ({ g with mIntervals := xs }, rest) := by
  unfold dispatch
  rw [if_neg (by decide), if_neg (by decide), if_neg (by decide), if_neg (by decide),
    if_neg (by decide), if_neg (by decide), if_pos rfl, hg]
  rw [readBlock_roundtrip 8 parseU64s (serDoubles xs) rest
    (by rw [serDoubles_length]; omega) hmax rfl]
  rw [parseU64s_ser xs hx]
  rfl

theorem dispatch_SHAPE (g : IGAData) (es : List Elem) (rest : List Nat)
    (he : ∀ e ∈ es, e.piece_end_index < 2 ^ 32 ∧ e.layout_index < 2 ^ 32 ∧
      e.edge_end_index < 2 ^ 32)
    (hg : g.mElems = [])
    (hmax : (serElems es).length < IGA_MAX_ALLOC) :
    dispatch g (tagValue tagSHAPE) (serElems es).length
      (serElems es ++ leBytes 8 (serElems es).length ++ rest) =
      some ({ g with mElems := es }, rest) := by
  unfold dispatch
  rw [if_neg (by decide), if_neg (by decide), if_neg (by decide), if_neg (by decide),
    if_neg (by decide), if_neg (by decide), if_neg (by decide), if_pos rfl, hg]
  rw [readBlock_roundtrip 12 parseElems (serElems es) rest
    (by rw [serElems_length]; omega) hmax rfl]
  rw [parseElems_ser es he]
  rfl

/-- Opening phase of the reader on a well-formed prefix: magic, then the
empty IGAFILE header block, then the loop on the remaining stream. -/
theorem readIGAFile_opens (S : List Nat) :
    readIGAFile (magicBytes ++
      ((markerBytes ++ leBytes 8 (tagValue tagIGAFILE) ++ leBytes 8 0 ++ leBytes 8 0) ++
       (leBytes 8 0 ++ S))) = readLoop (S.length + 1) {} S := by
  unfold readIGAFile
  have hm : readData 8 (magicBytes ++
      ((markerBytes ++ leBytes 8 (tagValue tagIGAFILE) ++ leBytes 8 0 ++ leBytes 8 0) ++
       (leBytes 8 0 ++ S))) =
      some (magicBytes,
        (markerBytes ++ leBytes 8 (tagValue tagIGAFILE) ++ leBytes 8 0 ++ leBytes 8 0) ++
        (leBytes 8 0 ++ S)) := by
    rw [show (8 : Nat) = magicBytes.length from rfl]
    exact readData_exact _ _
  rw [hm]
  dsimp only
  rw [if_neg (by simp)]
  unfold readHeader
  have h32 : readData 32
      ((markerBytes ++ leBytes 8 (tagValue tagIGAFILE) ++ leBytes 8 0 ++ leBytes 8 0) ++
       (leBytes 8 0 ++ S)) =
      some (markerBytes ++ leBytes 8 (tagValue tagIGAFILE) ++ leBytes 8 0 ++ leBytes 8 0,
        leBytes 8 0 ++ S) := by
    rw [show (32 : Nat) = (markerBytes ++ leBytes 8 (tagValue tagIGAFILE) ++
      leBytes 8 0 ++ leBytes 8 0).length from by simp [markerBytes, leBytes_length]]
    exact readData_exact _ _
  rw [h32]
  dsimp only
  rw [parseHeader_concat]
  rw [if_neg (by simp)]
  dsimp only
  rw [leWord_leBytes8 _ (by decide : tagValue tagIGAFILE < 2 ^ 64)]
  rw [if_neg (by simp)]
  rw [show leWord (leBytes 8 0) = 0 from by decide]
  have hb : readBlock 1 (fun bs => bs) ([] : List Nat) 0 (leBytes 8 0 ++ S) =
      some ([], S) := by
    have := readBlock_roundtrip 1 (fun bs => bs) [] S (by simp)
      (by norm_num [IGA_MAX_ALLOC]) rfl
    simpa using this
  rw [hb]

/-- Numeric well-formedness of a model as produced by the C++ types:
every `uint32_t` field below `2^32`, every double pattern below `2^64`,
every stored layout with its five offsets. -/
def WFb (g : IGAData) : Bool :=
  g.mCoeffs.all (fun x => x < 2 ^ 64) &&
  g.mPoints.all (fun p => p.x < 2 ^ 64 && p.y < 2 ^ 64 && p.z < 2 ^ 64 && p.w < 2 ^ 64) &&
  g.mPieces.all (fun p => p.st_order < 2 ^ 32 && p.s_index < 2 ^ 32 &&
    p.maybe_t_index < 2 ^ 32 && p.pt_index < 2 ^ 32) &&
  g.mEdges.all (fun e => e < 2 ^ 32) &&
  g.mIntervals.all (fun v => v < 2 ^ 64) &&
  g.mLayouts.all (fun l => l.side_range.length = 5 && l.side_range.all (fun v => v < 2 ^ 32)) &&
  g.mElems.all (fun e => e.piece_end_index < 2 ^ 32 && e.layout_index < 2 ^ 32 &&
    e.edge_end_index < 2 ^ 32)

/-- Every block payload the writer will emit for `g` stays below the
reader's allocation ceiling `IGA_MAX_ALLOC`. -/
def sizesOk (g : IGAData) : Bool :=
  g.mSrfType.length < IGA_MAX_ALLOC &&
  8 * g.mCoeffs.length < IGA_MAX_ALLOC &&
  32 * g.mPoints.length < IGA_MAX_ALLOC &&
  16 * g.mPieces.length < IGA_MAX_ALLOC &&
  20 * g.mLayouts.length < IGA_MAX_ALLOC &&
  4 * g.mEdges.length < IGA_MAX_ALLOC &&
  8 * g.mIntervals.length < IGA_MAX_ALLOC &&
  12 * g.mElems.length < IGA_MAX_ALLOC

/-- C1 (amended): for every model whose numeric fields fit their C++
types, whose block payloads stay below the allocation ceiling, and which
satisfies the data-model invariants, writing with `writeIGAFile` and
reading the produced bytes back with `readIGAFile` succeeds and
reproduces every field of the model.  (Without the payload-size bound the
claim fails: see the counterexample below.) -/
theorem writeIGAFile_readIGAFile (M : IGAData)
    (hwf : WFb M = true) (hsz : sizesOk M = true) (hvalid : M.isValid = true) :
    readIGAFile (writeIGAFile M) = some M := by
  have hmaxlt : IGA_MAX_ALLOC < 2 ^ 64 := by norm_num [IGA_MAX_ALLOC]
  simp only [WFb, Bool.and_eq_true, List.all_eq_true, decide_eq_true_eq] at hwf
  obtain ⟨⟨⟨⟨⟨⟨hco, hpt⟩, hpc⟩, hed⟩, hiv⟩, hly⟩, hel⟩ := hwf
  simp only [sizesOk, Bool.and_eq_true, decide_eq_true_eq] at hsz
  obtain ⟨⟨⟨⟨⟨⟨⟨hs1, hs2⟩, hs3⟩, hs4⟩, hs5⟩, hs6⟩, hs7⟩, hs8⟩ := hsz
  have hpt' : ∀ p ∈ M.mPoints, p.x < 2 ^ 64 ∧ p.y < 2 ^ 64 ∧ p.z < 2 ^ 64 ∧ p.w < 2 ^ 64 :=
    fun p hp => by have := hpt p hp; tauto
  have hpc' : ∀ p ∈ M.mPieces, p.st_order < 2 ^ 32 ∧ p.s_index < 2 ^ 32 ∧
      p.maybe_t_index < 2 ^ 32 ∧ p.pt_index < 2 ^ 32 :=
    fun p hp => by have := hpc p hp; tauto
  have hly' : ∀ l ∈ M.mLayouts, l.side_range.length = 5 ∧ ∀ v ∈ l.side_range, v < 2 ^ 32 :=
    fun l hl => by have := hly l hl; tauto
  have hel' : ∀ e ∈ M.mElems, e.piece_end_index < 2 ^ 32 ∧ e.layout_index < 2 ^ 32 ∧
      e.edge_end_index < 2 ^ 32 :=
    fun e he => by have := hel e he; tauto
  have hl5 : ∀ l ∈ M.mLayouts, l.side_range.length = 5 := fun l hl => (hly' l hl).1
  have hmax1 : M.mSrfType.length < IGA_MAX_ALLOC := hs1
  have hmax2 : (serDoubles M.mCoeffs).length < IGA_MAX_ALLOC := by
    rw [serDoubles_length]; omega
  have hmax3 : (serPoints M.mPoints).length < IGA_MAX_ALLOC := by
    rw [serPoints_length]; omega
  have hmax4 : (serPieces M.mPieces).length < IGA_MAX_ALLOC := by
    rw [serPieces_length]; omega
  have hmax5 : (serLayouts M.mLayouts).length < IGA_MAX_ALLOC := by
    rw [serLayouts_length M.mLayouts hl5]; omega
  have hmax6 : (serU32s M.mEdges).length < IGA_MAX_ALLOC := by
    rw [serU32s_length]; omega
  have hmax7 : (serDoubles M.mIntervals).length < IGA_MAX_ALLOC := by
    rw [serDoubles_length]; omega
  have hmax8 : (serElems M.mElems).length < IGA_MAX_ALLOC := by
    rw [serElems_length]; omega
  have hB0 : writeBlockBytes tagIGAFILE [] =
      (markerBytes ++ leBytes 8 (tagValue tagIGAFILE) ++ leBytes 8 0 ++ leBytes 8 0) ++
      leBytes 8 0 := by
    simp [writeBlockBytes, List.append_assoc]
  by_cases hKI : M.mIntervals = []
  · -- no KNOTINT block
    have hw : writeIGAFile M = magicBytes ++
        ((markerBytes ++ leBytes 8 (tagValue tagIGAFILE) ++ leBytes 8 0 ++ leBytes 8 0) ++
         (leBytes 8 0 ++
          (writeBlockBytes tagSRFTYPE M.mSrfType ++
           (writeBlockBytes tagVECDICT (serDoubles M.mCoeffs) ++
            (writeBlockBytes tagPT3DW (serPoints M.mPoints) ++
             (writeBlockBytes tag2DPIECE (serPieces M.mPieces) ++
              (writeBlockBytes tagLAYOUT (serLayouts M.mLayouts) ++
               (writeBlockBytes tagEDGES (serU32s M.mEdges) ++
                (writeBlockBytes tagSHAPE (serElems M.mElems) ++ []))))))))) := by
      rw [writeIGAFile, hB0, hKI]
      simp [List.append_assoc]
    rw [hw, readIGAFile_opens]
    rw [readLoop_block _ _ _ tagSRFTYPE M.mSrfType _ (by decide) (by omega)
      (dispatch_SRFTYPE {} M.mSrfType _ hmax1) (Nat.lt_succ_self _)]
    rw [readLoop_block _ _ _ tagVECDICT (serDoubles M.mCoeffs) _ (by decide) (by omega)
      (dispatch_VECDICT _ M.mCoeffs _ hco rfl hmax2) (Nat.lt_succ_self _)]
    rw [readLoop_block _ _ _ tagPT3DW (serPoints M.mPoints) _ (by decide) (by omega)
      (dispatch_PT3DW _ M.mPoints _ hpt' rfl hmax3) (Nat.lt_succ_self _)]
    rw [readLoop_block _ _ _ tag2DPIECE (serPieces M.mPieces) _ (by decide) (by omega)
      (dispatch_2DPIECE _ M.mPieces _ hpc' rfl hmax4) (Nat.lt_succ_self _)]
    rw [readLoop_block _ _ _ tagLAYOUT (serLayouts M.mLayouts) _ (by decide) (by omega)
      (dispatch_LAYOUT _ M.mLayouts _ hly' rfl hmax5) (Nat.lt_succ_self _)]
    rw [readLoop_block _ _ _ tagEDGES (serU32s M.mEdges) _ (by decide) (by omega)
      (dispatch_EDGES _ M.mEdges _ hed rfl hmax6) (Nat.lt_succ_self _)]
    rw [readLoop_block _ _ _ tagSHAPE (serElems M.mElems) [] (by decide) (by omega)
      (dispatch_SHAPE _ M.mElems [] hel' rfl hmax8) (Nat.lt_succ_self _)]
    have hend : ∀ g : IGAData, readLoop (([] : List Nat).length + 1) g [] = some g := by
      intro g
      have hrd : readData 32 ([] : List Nat) = none := rfl
      simp [readLoop, hrd]
    rw [hend]
    obtain ⟨srf, co, pts, pcs, eds, ivs, lys, els⟩ := M
    simp only at hKI
    subst hKI
    rfl
  · -- with a KNOTINT block
    have hKIlen : M.mIntervals.length > 0 := by
      cases hm : M.mIntervals with
      | nil => exact absurd hm hKI
      | cons a l => simp [hm]
    have hw : writeIGAFile M = magicBytes ++
        ((markerBytes ++ leBytes 8 (tagValue tagIGAFILE) ++ leBytes 8 0 ++ leBytes 8 0) ++
         (leBytes 8 0 ++
          (writeBlockBytes tagSRFTYPE M.mSrfType ++
           (writeBlockBytes tagVECDICT (serDoubles M.mCoeffs) ++
            (writeBlockBytes tagPT3DW (serPoints M.mPoints) ++
             (writeBlockBytes tag2DPIECE (serPieces M.mPieces) ++
              (writeBlockBytes tagLAYOUT (serLayouts M.mLayouts) ++
               (writeBlockBytes tagEDGES (serU32s M.mEdges) ++
                (writeBlockBytes tagKNOTINT (serDoubles M.mIntervals) ++
                 (writeBlockBytes tagSHAPE (serElems M.mElems) ++ [])))))))))) := by
      rw [writeIGAFile, hB0]
      rw [if_pos hKIlen]
      simp [List.append_assoc]
    rw [hw, readIGAFile_opens]
    rw [readLoop_block _ _ _ tagSRFTYPE M.mSrfType _ (by decide) (by omega)
      (dispatch_SRFTYPE {} M.mSrfType _ hmax1) (Nat.lt_succ_self _)]
    rw [readLoop_block _ _ _ tagVECDICT (serDoubles M.mCoeffs) _ (by decide) (by omega)
      (dispatch_VECDICT _ M.mCoeffs _ hco rfl hmax2) (Nat.lt_succ_self _)]
    rw [readLoop_block _ _ _ tagPT3DW (serPoints M.mPoints) _ (by decide) (by omega)
      (dispatch_PT3DW _ M.mPoints _ hpt' rfl hmax3) (Nat.lt_succ_self _)]
    rw [readLoop_block _ _ _ tag2DPIECE (serPieces M.mPieces) _ (by decide) (by omega)
      (dispatch_2DPIECE _ M.mPieces _ hpc' rfl hmax4) (Nat.lt_succ_self _)]
    rw [readLoop_block _ _ _ tagLAYOUT (serLayouts M.mLayouts) _ (by decide) (by omega)
      (dispatch_LAYOUT _ M.mLayouts _ hly' rfl hmax5) (Nat.lt_succ_self _)]
    rw [readLoop_block _ _ _ tagEDGES (serU32s M.mEdges) _ (by decide) (by omega)
      (dispatch_EDGES _ M.mEdges _ hed rfl hmax6) (Nat.lt_succ_self _)]
    rw [readLoop_block _ _ _ tagKNOTINT (serDoubles M.mIntervals) _ (by decide) (by omega)
      (dispatch_KNOTINT _ M.mIntervals _ hiv rfl hmax7) (Nat.lt_succ_self _)]
    rw [readLoop_block _ _ _ tagSHAPE (serElems M.mElems) [] (by decide) (by omega)
      (dispatch_SHAPE _ M.mElems [] hel' rfl hmax8) (Nat.lt_succ_self _)]
    have hend : ∀ g : IGAData, readLoop (([] : List Nat).length + 1) g [] = some g := by
      intro g
      have hrd : readData 32 ([] : List Nat) = none := rfl
      simp [readLoop, hrd]
    rw [hend]

/-- The concrete scenario of the format documentation: one element with
the (unstored) default layout, four boundary edges, one control point
`{0,0,0,1}`, one explicit 2-by-2 piece over the coefficients
`[1.0, 2.0, 3.0, 4.0]` (given as binary64 bit patterns). -/
def gScenario : IGAData :=
  { mCoeffs := [0x3FF0000000000000, 0x4000000000000000, 0x4008000000000000,
      0x4010000000000000],
    mPoints := [{ x := 0, y := 0, z := 0, w := oneBits }],
    mPieces := [{ st_order := 2 + 2 * 65536, s_index := 0,
                  maybe_t_index := INVALID_INDEX, pt_index := 0 }],
    mEdges := [INVALID_INDEX, INVALID_INDEX, INVALID_INDEX, INVALID_INDEX],
    mIntervals := [],
    mLayouts := [],
    mElems := [{ piece_end_index := 1, layout_index := 0, edge_end_index := 4 }] }

theorem writeIGAFile_readIGAFile_witness :
    WFb gScenario = true ∧ sizesOk gScenario = true ∧
    IGAData.isValid gScenario = true ∧
    readIGAFile (writeIGAFile gScenario) = some gScenario :=
  ⟨by decide, by decide, by decide,
    writeIGAFile_readIGAFile gScenario (by decide) (by decide) (by decide)⟩

/-! Failing the round trip at the allocation ceiling: a valid model whose
coefficient payload reaches `IGA_MAX_ALLOC` bytes writes fine but cannot
be read back. -/

theorem readBlock_alloc_fail (k : Nat) (parse : List Nat → List α) (old : List α)
    (len : Nat) (s : List Nat) (hmod : len % k = 0) (hz : len ≠ 0)
    (hmax : IGA_MAX_ALLOC ≤ len) : readBlock k parse old len s = none := by
  unfold readBlock readBlockPayload
  rw [if_neg (by simp [hmod])]
  rw [if_neg hz, if_pos hmax]

theorem readLoop_block_fail (fuel : Nat) (g : IGAData) (t payload rest : List Nat)
    (ht : tagValue t < 2 ^ 64) (hlen : payload.length < 2 ^ 64)
    (hd : dispatch g (tagValue t) payload.length
        (payload ++ leBytes 8 payload.length ++ rest) = none)
    (hfuel : 1 ≤ fuel) :
    readLoop fuel g (writeBlockBytes t payload ++ rest) = none := by
  obtain ⟨f, rfl⟩ : ∃ f, fuel = f + 1 := ⟨fuel - 1, by omega⟩
  have hstream : writeBlockBytes t payload ++ rest =
      (markerBytes ++ leBytes 8 (tagValue t) ++ leBytes 8 0 ++ leBytes 8 payload.length) ++
      (payload ++ leBytes 8 payload.length ++ rest) := by
    simp [writeBlockBytes, List.append_assoc]
  have h32 : (markerBytes ++ leBytes 8 (tagValue t) ++ leBytes 8 0 ++
      leBytes 8 payload.length).length = 32 := by
    simp [markerBytes, leBytes_length]
  have hrd : readData 32 (writeBlockBytes t payload ++ rest) =
      some (markerBytes ++ leBytes 8 (tagValue t) ++ leBytes 8 0 ++ leBytes 8 payload.length,
        payload ++ leBytes 8 payload.length ++ rest) := by
    rw [hstream, ← h32]
    exact readData_exact _ _
  unfold readLoop
  rw [hrd]
  dsimp only
  rw [parseHeader_concat]
  rw [if_neg (by simp)]
  dsimp only
  rw [leWord_leBytes8 _ ht, leWord_leBytes8 _ hlen, hd]

theorem dispatch_VECDICT_alloc_fail (g : IGAData) (len : Nat) (s : List Nat)
    (hmod : len % 8 = 0) (hz : len ≠ 0) (hmax : IGA_MAX_ALLOC ≤ len) :
    dispatch g (tagValue tagVECDICT) len s = none := by
  unfold dispatch
  rw [if_neg (by decide), if_pos rfl]
  rw [readBlock_alloc_fail 8 parseU64s g.mCoeffs len s hmod hz hmax]
  rfl

/-- A model that satisfies every data-model invariant but whose
coefficient dictionary serialises to exactly `IGA_MAX_ALLOC` bytes. -/
def bigModel : IGAData := { mCoeffs := List.replicate 32000000 0 }

theorem bigModel_coeffs_length : bigModel.mCoeffs.length = 32000000 :=
  List.length_replicate _ _

/-- On any stream that opens with the magic, the IGAFILE header block, a
SRFTYPE block and then a VECDICT block whose length reaches the
allocation ceiling, the reader fails, whatever bytes follow. -/
theorem readIGAFile_vecdict_too_big (srf pv tail : List Nat)
    (hsrf : srf.length < IGA_MAX_ALLOC) (hsrf64 : srf.length < 2 ^ 64)
    (hmod : pv.length % 8 = 0) (hz : pv.length ≠ 0)
    (hmax : IGA_MAX_ALLOC ≤ pv.length) (hlt : pv.length < 2 ^ 64) :
    readIGAFile (magicBytes ++
      ((markerBytes ++ leBytes 8 (tagValue tagIGAFILE) ++ leBytes 8 0 ++ leBytes 8 0) ++
       (leBytes 8 0 ++
        (writeBlockBytes tagSRFTYPE srf ++
         (writeBlockBytes tagVECDICT pv ++ tail))))) = none := by
  rw [readIGAFile_opens]
  refine Eq.trans (readLoop_block _ _ _ tagSRFTYPE srf _ (by decide) hsrf64
    (dispatch_SRFTYPE {} srf _ hsrf) (Nat.lt_succ_self _)) ?_
  exact readLoop_block_fail _ _ tagVECDICT pv _ (by decide) hlt
    (dispatch_VECDICT_alloc_fail _ _ _ hmod hz hmax) (by omega)

/-- C1 counterexample: `bigModel` passes `isValid`, yet decoding the
bytes written for it fails — the reader rejects the 256000000-byte
VECDICT block at the allocation ceiling, so the round trip of the claim
does not hold for every valid model. -/
theorem roundtrip_fails_at_alloc_ceiling :
    IGAData.isValid bigModel = true ∧
    readIGAFile (writeIGAFile bigModel) = none := by
  have hlen : (serDoubles bigModel.mCoeffs).length = 256000000 := by
    rw [serDoubles_length, bigModel_coeffs_length]
  have hB0 : writeBlockBytes tagIGAFILE [] =
      (markerBytes ++ leBytes 8 (tagValue tagIGAFILE) ++ leBytes 8 0 ++ leBytes 8 0) ++
      leBytes 8 0 := by
    simp [writeBlockBytes, List.append_assoc]
  have hw : writeIGAFile bigModel = magicBytes ++
      ((markerBytes ++ leBytes 8 (tagValue tagIGAFILE) ++ leBytes 8 0 ++ leBytes 8 0) ++
       (leBytes 8 0 ++
        (writeBlockBytes tagSRFTYPE bigModel.mSrfType ++
         (writeBlockBytes tagVECDICT (serDoubles bigModel.mCoeffs) ++
          (writeBlockBytes tagPT3DW (serPoints bigModel.mPoints) ++
           (writeBlockBytes tag2DPIECE (serPieces bigModel.mPieces) ++
            (writeBlockBytes tagLAYOUT (serLayouts bigModel.mLayouts) ++
             (writeBlockBytes tagEDGES (serU32s bigModel.mEdges) ++
              (writeBlockBytes tagSHAPE (serElems bigModel.mElems) ++ []))))))))) := by
    rw [writeIGAFile, hB0]
    rw [if_neg (by decide : ¬ (bigModel.mIntervals.length > 0))]
    simp [List.append_assoc]
  constructor
  · have hc : IGAData.coeffsOk bigModel = true := by
      unfold IGAData.coeffsOk
      rw [List.all_eq_true]
      intro x hx
      rw [List.eq_of_mem_replicate (show x ∈ List.replicate 32000000 0 from hx)]
      decide
    unfold IGAData.isValid
    rw [hc]
    rfl
  · exact Eq.trans (congrArg readIGAFile hw)
      (readIGAFile_vecdict_too_big bigModel.mSrfType (serDoubles bigModel.mCoeffs) _
        (by decide) (by decide)
        (by rw [hlen]) (by rw [hlen]; norm_num)
        (by rw [hlen]; norm_num [IGA_MAX_ALLOC]) (by rw [hlen]; norm_num))

end IGA